import Mathlib

/-!
# Verification of the outliner edit engine of `my-notes-app`

This file gives a shallow embedding of the tree data model and the
structural edit operations of the latest revision (v13.39) of
`src/App.jsx`, together with theorems settling the specification claims.

Embedding conventions, used consistently below:

* A document node `{ id, text, collapsed, children }` becomes the mutual
  inductive pair `Node`/`Forest` (a node and its ordered children).
* The JavaScript handlers locate a node with `findNodeAndParent` (first
  match in pre-order) and then mutate the located objects in place.
  Functionally we model a mutation of a located object as a rewrite of the
  first pre-order occurrence of its id (`mapFirst`, `extractFirstN`,
  `insertBeforeFirst`, `insertAfterFirst`).  On documents with pairwise
  distinct ids — the standing invariant of the data model — this is
  exactly the source behaviour.
* `GENERATE_ID()` (a random-string generator) is modelled as an explicit
  parameter: a single fresh id for the single-node operations, a
  generator `Nat → String` for the paste parser which consumes one id per
  line.
* Where the source would throw at runtime (the `nodeToMove`
  `ReferenceError` in `handleTab`, or a `TypeError` from dereferencing a
  `null` parent), the React state updater aborts and the committed tree is
  unchanged.  `handleTab` returns `Except` so the error is observable;
  the other (unreachable under the documented guards) crash branches
  return the unchanged tree, each marked with a comment.
* JavaScript string operations (`trim`, `toLowerCase`, `includes`,
  `slice`, `startsWith`/`endsWith`) are modelled by explicit functions on
  the character list of a `String`.
-/

/-- Cursor directive of a focus intent: the handlers set
`cursorGoalRef.current` to `'start'`, `'end'`, a numeric offset, or leave
it unset. -/
inductive Cursor where
  | start : Cursor
  | atEnd : Cursor
  | offset : Nat → Cursor
  | none : Cursor
deriving Repr, DecidableEq

/-- The focus directive produced by a mutation: which node should receive
focus (`setFocusId`) and where the cursor should land. -/
structure FocusIntent where
  focusId : Option String
  cursor : Cursor
deriving Repr, DecidableEq

/-- No focus change: the handler returned without calling `setFocusId`. -/
def FocusIntent.noFocus : FocusIntent := ⟨Option.none, Cursor.none⟩

/-- Direction argument of `handleMoveNode`. -/
inductive Direction where
  | up : Direction
  | down : Direction
deriving Repr, DecidableEq

mutual
/-- A document node: `{ id, text, collapsed, children }` (§3 of the spec,
`DEFAULT_STATE` shape in the source). -/
inductive Node : Type where
  | mk : String → String → Bool → Forest → Node
deriving Repr, DecidableEq

/-- The ordered children sequence of a node. -/
inductive Forest : Type where
  | nil : Forest
  | cons : Node → Forest → Forest
deriving Repr, DecidableEq
end

def Node.id : Node → String
  | .mk i _ _ _ => i

def Node.text : Node → String
  | .mk _ t _ _ => t

def Node.collapsed : Node → Bool
  | .mk _ _ b _ => b

def Node.children : Node → Forest
  | .mk _ _ _ f => f

/-- Replace the `text` field (models `node.text = s`). -/
def Node.withText : Node → String → Node
  | .mk i _ b f, s => .mk i s b f

/-- Replace the `collapsed` field (models `node.collapsed = b`). -/
def Node.withCollapsed : Node → Bool → Node
  | .mk i t _ f, b => .mk i t b f

/-- Replace the `children` field. -/
def Node.withChildren : Node → Forest → Node
  | .mk i t b _, f => .mk i t b f

@[simp] theorem Node.id_mk (i t : String) (b : Bool) (f : Forest) :
    (Node.mk i t b f).id = i := rfl

@[simp] theorem Node.text_mk (i t : String) (b : Bool) (f : Forest) :
    (Node.mk i t b f).text = t := rfl

@[simp] theorem Node.collapsed_mk (i t : String) (b : Bool) (f : Forest) :
    (Node.mk i t b f).collapsed = b := rfl

@[simp] theorem Node.children_mk (i t : String) (b : Bool) (f : Forest) :
    (Node.mk i t b f).children = f := rfl

/-! ## Forest toolkit

Functional counterparts of the JavaScript array operations used on
`children`: `length`, indexing, `findIndex (c => c.id === id)`,
`splice(i, 1)`, `splice(i, 0, x)`, `children[i] = x`, `push`,
`unshift`, spreads. -/

def Forest.length : Forest → Nat
  | .nil => 0
  | .cons _ f => f.length + 1

def Forest.get? : Forest → Nat → Option Node
  | .nil, _ => Option.none
  | .cons n _, 0 => some n
  | .cons _ f, k + 1 => f.get? k

/-- `children.findIndex(c => c.id === id)`; returns the length when absent
(the source only evaluates it when the element is present, so the `-1`
case is unreachable there). -/
def Forest.findIdxId : Forest → String → Nat
  | .nil, _ => 0
  | .cons n f, i => if n.id = i then 0 else f.findIdxId i + 1

/-- `splice(k, 1)`: remove the element at index `k` (no change when out of
range). -/
def Forest.eraseIdx : Forest → Nat → Forest
  | .nil, _ => .nil
  | .cons _ f, 0 => f
  | .cons n f, k + 1 => .cons n (f.eraseIdx k)

/-- `children[k] = x` (no change when out of range; in-range in every
reachable use). -/
def Forest.set : Forest → Nat → Node → Forest
  | .nil, _, _ => .nil
  | .cons _ f, 0, x => .cons x f
  | .cons n f, k + 1, x => .cons n (f.set k x)

def Forest.append : Forest → Forest → Forest
  | .nil, g => g
  | .cons n f, g => .cons n (f.append g)

/-- `splice(k, 0, x)`: insert `x` at index `k` (clamped to the end, as
`splice` does). -/
def Forest.insertAt : Forest → Nat → Node → Forest
  | f, 0, x => .cons x f
  | .nil, _ + 1, x => .cons x .nil
  | .cons n f, k + 1, x => .cons n (f.insertAt k x)

/-- `splice(k, 0, ...xs)`: insert a whole forest at index `k`. -/
def Forest.insertManyAt : Forest → Nat → Forest → Forest
  | f, 0, xs => xs.append f
  | .nil, _ + 1, xs => xs
  | .cons n f, k + 1, xs => .cons n (f.insertManyAt k xs)

def Forest.isNil : Forest → Bool
  | .nil => true
  | .cons _ _ => false

def Forest.single (n : Node) : Forest := .cons n .nil

@[simp] theorem Forest.isNil_nil : Forest.nil.isNil = true := rfl

@[simp] theorem Forest.isNil_cons (n : Node) (f : Forest) :
    (Forest.cons n f).isNil = false := rfl

@[simp] theorem Forest.isNil_eq_true (f : Forest) :
    f.isNil = true ↔ f = .nil := by
  cases f <;> simp [Forest.isNil]

/-! ## JavaScript string helpers -/

/-- The whitespace class of JavaScript `\s` (restricted to the code points
that can occur in this development). -/
def isJsWs (c : Char) : Bool :=
  c = ' ' ∨ c = '\t' ∨ c = '\n' ∨ c = '\r' ∨ c = '\x0b' ∨ c = '\x0c'

/-- JavaScript `String.prototype.trim`. -/
def jsTrim (s : String) : String :=
  ⟨((s.data.dropWhile isJsWs).reverse.dropWhile isJsWs).reverse⟩

/-- JavaScript `toLowerCase` (ASCII). -/
def jsToLower (s : String) : String := ⟨s.data.map Char.toLower⟩

def charsPrefix : List Char → List Char → Bool
  | [], _ => true
  | _ :: _, [] => false
  | p :: ps, c :: cs => p = c && charsPrefix ps cs

def charsIncludes (pat : List Char) : List Char → Bool
  | [] => charsPrefix pat []
  | c :: cs => charsPrefix pat (c :: cs) || charsIncludes pat cs

/-- JavaScript `s.includes(pat)`. -/
def jsIncludes (s pat : String) : Bool := charsIncludes pat.data s.data

/-- JavaScript `s.slice(0, k)`. -/
def jsTake (s : String) (k : Nat) : String := ⟨s.data.take k⟩

/-- JavaScript `s.slice(k)`. -/
def jsDrop (s : String) (k : Nat) : String := ⟨s.data.drop k⟩

/-- JavaScript `s.endsWith(' ')`. -/
def endsWithSpace (s : String) : Bool := s.data.getLast? = some ' '

/-- JavaScript `s.startsWith(' ')`. -/
def startsWithSpace (s : String) : Bool := s.data.head? = some ' '

/-- `text.replace(/\n{3,}/g, '\n\n')`: collapse runs of three or more
newlines down to two. -/
def squeezeNewlinesAux : List Char → Nat → List Char
  | [], _ => []
  | '\n' :: cs, run =>
    if run ≥ 2 then squeezeNewlinesAux cs (run + 1)
    else '\n' :: squeezeNewlinesAux cs (run + 1)
  | c :: cs, _ => c :: squeezeNewlinesAux cs 0

def squeezeNewlines (s : String) : String := ⟨squeezeNewlinesAux s.data 0⟩

/-- The blur/arrow text normalisation: `text.trim()` followed by the
newline squeeze. -/
def normalizeText (s : String) : String := squeezeNewlines (jsTrim s)

/-! ## Ids, pre-order traversal, lookup -/

mutual
/-- All ids of a node's subtree, in pre-order. -/
def Node.ids : Node → List String
  | .mk i _ _ f => i :: f.idsF

/-- All ids of a forest, in pre-order. -/
def Forest.idsF : Forest → List String
  | .nil => []
  | .cons n f => n.ids ++ f.idsF
end

@[simp] theorem Node.ids_mk (i t : String) (b : Bool) (f : Forest) :
    (Node.mk i t b f).ids = i :: f.idsF := rfl

@[simp] theorem Forest.idsF_nil : Forest.nil.idsF = [] := rfl

@[simp] theorem Forest.idsF_cons (n : Node) (f : Forest) :
    (Forest.cons n f).idsF = n.ids ++ f.idsF := rfl

/-- The multiset of ids of a subtree; the workhorse for the
id-preservation arguments. -/
def Node.mids (n : Node) : Multiset String := (n.ids : Multiset String)

/-- The multiset of ids of a forest. -/
def Forest.midsF (f : Forest) : Multiset String := (f.idsF : Multiset String)

@[simp] theorem Node.mids_mk (i t : String) (b : Bool) (f : Forest) :
    (Node.mk i t b f).mids = i ::ₘ f.midsF := by
  simp [Node.mids, Forest.midsF]

@[simp] theorem Forest.midsF_nil : Forest.nil.midsF = 0 := rfl

@[simp] theorem Forest.midsF_cons (n : Node) (f : Forest) :
    (Forest.cons n f).midsF = n.mids + f.midsF := by
  simp [Node.mids, Forest.midsF]

mutual
/-- `findNodeAndParent(root, targetId, parent)` (source lines 1074-1082):
first pre-order node whose id equals `targetId`, together with its direct
parent (`Option.none` at the root). -/
def fnapN (targetId : String) (parent : Option Node) : Node → Option (Node × Option Node)
  | .mk i t b cs =>
    if i = targetId then some (.mk i t b cs, parent)
    else fnapF targetId (.mk i t b cs) cs

/-- The `for (const child of root.children)` loop of `findNodeAndParent`. -/
def fnapF (targetId : String) (par : Node) : Forest → Option (Node × Option Node)
  | .nil => Option.none
  | .cons c rest =>
    match fnapN targetId (some par) c with
    | some r => some r
    | Option.none => fnapF targetId par rest
end

/-- `findNodeAndParent(root, targetId)` with the default `parent = null`. -/
def findNodeAndParent (t : Node) (targetId : String) : Option (Node × Option Node) :=
  fnapN targetId Option.none t

mutual
/-- Remove the first pre-order occurrence of id `cid` *below* the root of
`t` and return it: the functional form of
`parent.children.splice(childIndex, 1)` performed at the parent located by
`findNodeAndParent`. -/
def extractFirstN (cid : String) : Node → Node × Option Node
  | .mk i t b f =>
    match extractFirstF cid f with
    | (f', r) => (.mk i t b f', r)

def extractFirstF (cid : String) : Forest → Forest × Option Node
  | .nil => (.nil, Option.none)
  | .cons c rest =>
    if c.id = cid then (rest, some c)
    else
      match extractFirstN cid c with
      | (c', some n) => (.cons c' rest, some n)
      | (_, Option.none) =>
        match extractFirstF cid rest with
        | (rest', r) => (.cons c rest', r)
end

/-- The tree after detaching the first occurrence of `cid` from its
parent (unchanged when `cid` only occurs at the root or not at all). -/
def removeFirstById (t : Node) (cid : String) : Node := (extractFirstN cid t).1

mutual
/-- Insert `x` immediately before the first pre-order occurrence of id
`tid` among its siblings: the functional form of
`targetParent.children.splice(targetIndex, 0, x)` at the parent located by
`findNodeAndParent`. -/
def insBeforeN (tid : String) (x : Node) : Node → Node × Bool
  | .mk i t b f =>
    match insBeforeF tid x f with
    | (f', fd) => (.mk i t b f', fd)

def insBeforeF (tid : String) (x : Node) : Forest → Forest × Bool
  | .nil => (.nil, false)
  | .cons c rest =>
    if c.id = tid then (.cons x (.cons c rest), true)
    else
      match insBeforeN tid x c with
      | (c', true) => (.cons c' rest, true)
      | (_, false) =>
        match insBeforeF tid x rest with
        | (rest', fd) => (.cons c rest', fd)
end

/-- Insert before the first occurrence of `tid`; unchanged when `tid` is
the root id (the root has no sibling list — the source guards exclude
this case) or absent. -/
def insertBeforeFirst (t : Node) (tid : String) (x : Node) : Node :=
  if t.id = tid then t else (insBeforeN tid x t).1

mutual
/-- Insert `x` immediately after the first pre-order occurrence of id
`tid` among its siblings: the functional form of
`grandParent.children.splice(parentIndex + 1, 0, x)` at the grandparent
located by `findNodeAndParent`. -/
def insAfterN (tid : String) (x : Node) : Node → Node × Bool
  | .mk i t b f =>
    match insAfterF tid x f with
    | (f', fd) => (.mk i t b f', fd)

def insAfterF (tid : String) (x : Node) : Forest → Forest × Bool
  | .nil => (.nil, false)
  | .cons c rest =>
    if c.id = tid then (.cons c (.cons x rest), true)
    else
      match insAfterN tid x c with
      | (c', true) => (.cons c' rest, true)
      | (_, false) =>
        match insAfterF tid x rest with
        | (rest', fd) => (.cons c rest', fd)
end

/-- Insert after the first occurrence of `tid`; unchanged when `tid` is
the root id or absent (see `insertBeforeFirst`). -/
def insertAfterFirst (t : Node) (tid : String) (x : Node) : Node :=
  if t.id = tid then t else (insAfterN tid x t).1

mutual
/-- Rewrite the first pre-order occurrence of id `tid` with `f`: the
functional form of mutating the node object returned by
`findNodeAndParent`. -/
def mapFirstN (tid : String) (f : Node → Node) : Node → Node × Bool
  | .mk i t b cs =>
    if i = tid then (f (.mk i t b cs), true)
    else
      match mapFirstF tid f cs with
      | (cs', fd) => (.mk i t b cs', fd)

def mapFirstF (tid : String) (f : Node → Node) : Forest → Forest × Bool
  | .nil => (.nil, false)
  | .cons c rest =>
    match mapFirstN tid f c with
    | (c', true) => (.cons c' rest, true)
    | (_, false) =>
      match mapFirstF tid f rest with
      | (rest', fd) => (.cons c rest', fd)
end

/-- The tree with the first occurrence of `tid` rewritten by `f`
(unchanged when `tid` is absent). -/
def mapFirst (t : Node) (tid : String) (f : Node → Node) : Node :=
  (mapFirstN tid f t).1

mutual
/-- `findInSubtree` of `isDescendant` (source lines 276-279): does the id
`targetId` occur in the subtree of `n`? -/
def findInSubtree (targetId : String) : Node → Bool
  | .mk i _ _ cs => i = targetId || findInSubtreeF targetId cs

def findInSubtreeF (targetId : String) : Forest → Bool
  | .nil => false
  | .cons c rest => findInSubtree targetId c || findInSubtreeF targetId rest
end

/-- `isDescendant(tree, sourceId, targetId)` (source lines 272-281): is
`targetId` a proper descendant of the (first) node with id `sourceId`? -/
def isDescendant (t : Node) (sourceId targetId : String) : Bool :=
  match findNodeAndParent t sourceId with
  | Option.none => false
  | some (sourceNode, _) => findInSubtreeF targetId sourceNode.children

mutual
/-- Cycle-freedom, stated on ids: no node's id occurs among the ids of its
proper descendants — no node is its own ancestor. -/
def acyclicN : Node → Bool
  | .mk i _ _ f => !(f.idsF.contains i) && acyclicF f

def acyclicF : Forest → Bool
  | .nil => true
  | .cons n f => acyclicN n && acyclicF f
end

/-! ## Tree-mutating operations of the latest revision

Each definition carries the source line numbers of the handler it embeds;
`…Tree` names the tree effect of a handler whose remaining work is pure
focus bookkeeping. -/

/-- `handleUpdateText` (1245-1254). -/
def handleUpdateTextTree (t : Node) (id newText : String) : Node :=
  mapFirst t id (fun n => n.withText newText)

/-- `handleToggleCollapse` (1307-1329) tree effect; the focus rescue only
touches focus state. -/
def handleToggleCollapseTree (t : Node) (id : String) : Node :=
  mapFirst t id (fun n => n.withCollapsed (!n.collapsed))

/-- `setCollapseState` (1331-1352) tree effect. -/
def setCollapseStateTree (t : Node) (id : String) (b : Bool) : Node :=
  mapFirst t id (fun n => n.withCollapsed b)

mutual
/-- The traversal of `handleExpandAll` (1357-1362): `if (node.children)`
is always true of an array value, so every node's flag is cleared. -/
def expandAllN : Node → Node
  | .mk i t _ f => .mk i t false (expandAllF f)

def expandAllF : Forest → Forest
  | .nil => .nil
  | .cons n f => .cons (expandAllN n) (expandAllF f)
end

/-- `handleExpandAll` (1354-1368) tree effect. -/
def handleExpandAllTree (t : Node) : Node := expandAllN t

mutual
/-- The traversal of `handleCollapseAll` (1385-1390): every node's flag is
set. -/
def collapseAllN : Node → Node
  | .mk i t _ f => .mk i t true (collapseAllF f)

def collapseAllF : Forest → Forest
  | .nil => .nil
  | .cons n f => .cons (collapseAllN n) (collapseAllF f)
end

/-- `handleCollapseAll` (1370-1401) tree effect: collapse everything, then
`newTree.collapsed = false` re-expands the root (line 1392). -/
def handleCollapseAllTree (t : Node) : Node := (collapseAllN t).withCollapsed false

/-- `node.children.some(c => c.text.toLowerCase().includes(query))` — the
direct-children check in the return value of `searchAndExpand`
(line 1117). -/
def anyChildTextMatch (query : String) : Forest → Bool
  | .nil => false
  | .cons c rest => jsIncludes (jsToLower c.text) query || anyChildTextMatch query rest

mutual
/-- `searchAndExpand` (1105-1118): returns the rewritten node, the ids
pushed onto `matches` within this subtree (node before children, so
pre-order), and the function's return value
`isMatch || node.children.some(c => c.text.toLowerCase().includes(query))`.
The recursion only rewrites `collapsed` flags, never `text`, so the
direct-children text check reads the same values before and after. -/
def searchAndExpandN (query : String) : Node → Node × (List String × Bool)
  | .mk i t b cs =>
    let isMatch : Bool := t != "" && jsIncludes (jsToLower t) query
    match searchAndExpandF query cs with
    | (cs', ms, anyChild) =>
      (.mk i t (if anyChild then false else b) cs',
       ((if isMatch then [i] else []) ++ ms,
        isMatch || anyChildTextMatch query cs))

/-- The `forEach` of `searchAndExpand`: `node.collapsed = false` fires when
any child call returned `true`, reflected in the third component. -/
def searchAndExpandF (query : String) : Forest → Forest × (List String × Bool)
  | .nil => (.nil, ([], false))
  | .cons c rest =>
    match searchAndExpandN query c with
    | (c', msc, fc) =>
      match searchAndExpandF query rest with
      | (rest', msr, fr) => (.cons c' rest', (msc ++ msr, fc || fr))
end

/-- The search recomputation (1096-1123): a blank query clears the match
state without touching the tree; otherwise the lower-cased query is run
through `searchAndExpand` on a clone of the tree, and `matchIds` is the
collected `matches` list. -/
def runSearch (searchQuery : String) (t : Node) : Node × List String :=
  if jsTrim searchQuery = "" then (t, [])
  else
    match searchAndExpandN (jsToLower searchQuery) t with
    | (t', ms, _) => (t', ms)

/-- The per-parent rewrite of `handleBlur` (1284-1301): normalise the text
of the child carrying `id`, delete it if it is now blank and childless,
otherwise delete a blank childless previous sibling. -/
def blurFn (id : String) (p : Node) : Node :=
  let idx := p.children.findIdxId id
  match p.children.get? idx with
  | Option.none => p
  | some nd =>
    let text := normalizeText nd.text
    if text = "" ∧ nd.children = .nil then
      p.withChildren (p.children.eraseIdx idx)
    else
      let cs1 := p.children.set idx (nd.withText text)
      match idx with
      | 0 => p.withChildren cs1
      | j + 1 =>
        match cs1.get? j with
        | some prevNode =>
          if jsTrim prevNode.text = "" ∧ prevNode.children = .nil then
            p.withChildren (cs1.eraseIdx j)
          else p.withChildren cs1
        | Option.none => p.withChildren cs1

/-- `handleBlur` (1275-1305) tree effect when the one-shot
`skipBlurRef` suppression is not set.  A node without a parent only has
its text normalised (lines 1290-1300 both require `result.parent`). -/
def handleBlurTree (t : Node) (id : String) : Node :=
  match findNodeAndParent t id with
  | Option.none => t
  | some (_, Option.none) => mapFirst t id (fun m => m.withText (normalizeText m.text))
  | some (_, some parent) => mapFirst t parent.id (blurFn id)

/-- The `setTree` part of `handleArrow` (1711-1718): normalise the text of
the node being left. -/
def handleArrowNormalizeTree (t : Node) (id : String) : Node :=
  mapFirst t id (fun n => n.withText (normalizeText n.text))

/-- `handleAddFirstChild` (1429-1443): unshift a fresh empty node onto the
view root's children. -/
def handleAddFirstChildTree (t : Node) (viewRootId newId : String) : Node :=
  mapFirst t viewRootId
    (fun n => n.withChildren (.cons (Node.mk newId "" false .nil) n.children))

/-- `handleShiftTab` (1461-1484): outdent `id` to become the next sibling
of its parent.  No-ops: node missing or parentless, parent is the view
root, or the parent itself has no parent. -/
def handleShiftTab (viewRootId : String) (t : Node) (id : String) : Node × FocusIntent :=
  match findNodeAndParent t id with
  | Option.none => (t, FocusIntent.noFocus)
  | some (_, Option.none) => (t, FocusIntent.noFocus)
  | some (node, some parent) =>
    if parent.id = viewRootId then (t, FocusIntent.noFocus)
    else
      match findNodeAndParent t parent.id with
      | Option.none => (t, FocusIntent.noFocus)
      | some (_, Option.none) => (t, FocusIntent.noFocus)
      | some (_, some _grandParent) =>
        -- parent.children.splice(childIndex, 1);
        -- grandParent.children.splice(parentIndex + 1, 0, node)
        (insertAfterFirst (removeFirstById t id) parent.id node,
         ⟨some id, Cursor.atEnd⟩)

/-- `handleTab` (1621-1643) of the latest revision.  The indent branch
executes `prevSibling.children.push(nodeToMove)` but `nodeToMove` is
declared nowhere in this revision (the `const nodeToMove = …` line of the
earlier revisions is gone), so the updater throws a `ReferenceError`
before any state is committed; the error is surfaced in the `Except`
result. -/
def handleTab (t : Node) (id : String) : Except String Node :=
  match findNodeAndParent t id with
  | Option.none => .ok t
  | some (_, Option.none) => .ok t
  | some (_, some parent) =>
    let index := parent.children.findIdxId id
    if index = 0 then .ok t
    else .error "ReferenceError: nodeToMove is not defined"

/-- The tree actually held after a Tab keypress: the thrown
`ReferenceError` aborts the state update, leaving the previous tree. -/
def handleTabState (t : Node) (id : String) : Node :=
  match handleTab t id with
  | .ok t' => t'
  | .error _ => t

/-- Move-up absorption (1656-1659) as a rewrite of the parent: remove the
child at index `j + 1` and push it as the last child of the expanded
sibling at index `j`. -/
def moveUpAbsorbFn (j : Nat) (p : Node) : Node :=
  match p.children.get? (j + 1), p.children.get? j with
  | some nd, some pv =>
    p.withChildren ((p.children.eraseIdx (j + 1)).set j
      (pv.withChildren (pv.children.append (Forest.single nd))))
  | _, _ => p

/-- The sibling swap of `handleMoveNode` (1660-1663 and 1680-1683): swap
the children at indices `j` and `j + 1`. -/
def swapFn (j : Nat) (p : Node) : Node :=
  match p.children.get? (j + 1), p.children.get? j with
  | some nd, some pv => p.withChildren ((p.children.set (j + 1) pv).set j nd)
  | _, _ => p

/-- Move-down absorption (1677-1679): remove the child at index `j` and
unshift it as the first child of the expanded sibling that follows it. -/
def moveDownAbsorbFn (j : Nat) (p : Node) : Node :=
  match p.children.get? j, p.children.get? (j + 1) with
  | some nd, some nx =>
    p.withChildren ((p.children.eraseIdx j).set j
      (nx.withChildren (.cons nd nx.children)))
  | _, _ => p

/-- `handleMoveNode` (1645-1701). -/
def handleMoveNode (viewRootId : String) (t : Node) (id : String) (dir : Direction) :
    Node × FocusIntent :=
  match findNodeAndParent t id with
  | Option.none => (t, FocusIntent.noFocus)
  | some (_, Option.none) => (t, FocusIntent.noFocus)
  | some (node, some parent) =>
    let index := parent.children.findIdxId id
    match dir with
    | .up =>
      if 0 < index then
        match parent.children.get? (index - 1) with
        | some prevSibling =>
          if prevSibling.collapsed = false ∧ ¬prevSibling.children = .nil then
            (mapFirst t parent.id (moveUpAbsorbFn (index - 1)), ⟨some id, Cursor.none⟩)
          else
            (mapFirst t parent.id (swapFn (index - 1)), ⟨some id, Cursor.none⟩)
        | Option.none => (t, ⟨some id, Cursor.none⟩)
          -- unreachable: the found node sits at `index < length`
      else
        if parent.id = viewRootId ∨ parent.id = "root" then (t, FocusIntent.noFocus)
        else
          match findNodeAndParent t parent.id with
          | some (_, some _) =>
            -- parent.children.splice(index, 1);
            -- grandParent.children.splice(parentIndex, 0, node)
            (insertBeforeFirst (removeFirstById t id) parent.id node,
             ⟨some id, Cursor.none⟩)
          | _ => (t, ⟨some id, Cursor.none⟩)
    | .down =>
      if index + 1 < parent.children.length then
        match parent.children.get? (index + 1) with
        | some nextSibling =>
          if nextSibling.collapsed = false ∧ ¬nextSibling.children = .nil then
            (mapFirst t parent.id (moveDownAbsorbFn index), ⟨some id, Cursor.none⟩)
          else
            (mapFirst t parent.id (swapFn index), ⟨some id, Cursor.none⟩)
        | Option.none => (t, ⟨some id, Cursor.none⟩)
      else
        if parent.id = viewRootId ∨ parent.id = "root" then (t, FocusIntent.noFocus)
        else
          match findNodeAndParent t parent.id with
          | some (_, some _) =>
            -- parent.children.splice(index, 1);
            -- grandParent.children.splice(parentIndex + 1, 0, node)
            (insertAfterFirst (removeFirstById t id) parent.id node,
             ⟨some id, Cursor.none⟩)
          | _ => (t, ⟨some id, Cursor.none⟩)

/-- The de-duplication guard of `handleEnter` (1508-1511): is the previous
sibling (at `index - 1`) blank-texted and childless? -/
def blankPrevSibling (cs : Forest) (index : Nat) : Bool :=
  if index = 0 then false
  else
    match cs.get? (index - 1) with
    | some prevNode => (jsTrim prevNode.text == "") && prevNode.children.isNil
    | Option.none => false

/-- The cursor-0 insert of `handleEnter` (1512-1513) as a rewrite of the
parent: splice a fresh empty node in at `index`, i.e. before the current
node. -/
def enterInsertFn (index : Nat) (newId : String) (p : Node) : Node :=
  p.withChildren (p.children.insertAt index (Node.mk newId "" false .nil))

/-- The next-sibling split of `handleEnter` (1530-1541) as a rewrite of
the parent: truncate the text of the child at `index` to `[0, cursor)` and
splice a fresh node carrying `[cursor, end)` in at `index + 1`. -/
def enterSplitSiblingFn (index cursor : Nat) (newId : String) (p : Node) : Node :=
  match p.children.get? index with
  | some nd =>
    p.withChildren
      ((p.children.set index (nd.withText (jsTake nd.text cursor))).insertAt (index + 1)
        (Node.mk newId (jsDrop nd.text cursor) false .nil))
  | Option.none => p

/-- `handleEnter` (1486-1544).  `cursor` is `el.selectionStart`, `newId`
the value produced by `GENERATE_ID()`.  A node with empty text returns the
previous tree unchanged (line 1498). -/
def handleEnter (t : Node) (id : String) (cursor : Nat) (newId : String) :
    Node × FocusIntent :=
  match findNodeAndParent t id with
  | Option.none => (t, FocusIntent.noFocus)
  | some (node, parentOpt) =>
    if node.text = "" then (t, FocusIntent.noFocus)
    else
      match parentOpt with
      | Option.none => (t, FocusIntent.noFocus)
        -- `parent.children` of `null`: TypeError, state not committed
      | some parent =>
        let index := parent.children.findIdxId id
        if cursor = 0 then
          if blankPrevSibling parent.children index then (t, FocusIntent.noFocus)
          else
            (mapFirst t parent.id (enterInsertFn index newId),
             ⟨some newId, Cursor.start⟩)
        else if ¬node.children = .nil ∧ node.collapsed = false then
          -- shouldSplitIntoChild (1505): new node becomes the first child
          (mapFirst t id (fun n =>
             Node.mk n.id (jsTake n.text cursor) n.collapsed
               (.cons (Node.mk newId (jsDrop n.text cursor) false .nil) n.children)),
           ⟨some newId, Cursor.start⟩)
        else
          (mapFirst t parent.id (enterSplitSiblingFn index cursor newId),
           ⟨some newId, Cursor.start⟩)

/-- The merge branch of `handleBackspace` (1586-1597) as a rewrite of the
parent: the sibling at `j` absorbs the text of the child at `j + 1`
(inserting one joining space when both sides are non-empty and neither
already touches whitespace at the join) and adopts its children (forcing
the sibling to expand), and the child is removed. -/
def backspaceMergeFn (j : Nat) (p : Node) : Node :=
  match p.children.get? (j + 1), p.children.get? j with
  | some nd, some pv =>
    let withSpace : Bool :=
      pv.text != "" && nd.text != "" && !endsWithSpace pv.text && !startsWithSpace nd.text
    let joined := pv.text ++ (if withSpace then " " else "") ++ nd.text
    let merged :=
      if nd.children.isNil then Node.mk pv.id joined pv.collapsed pv.children
      else Node.mk pv.id joined false (pv.children.append nd.children)
    p.withChildren ((p.children.eraseIdx (j + 1)).set j merged)
  | _, _ => p

/-- The common tail of `handleBackspace` (1573-1617): reparent into an
expanded previous sibling, merge into a collapsed-or-childless one, or
promote a first child past its parent. -/
def backspaceMain (viewRootId : String) (t : Node) (id : String)
    (node parent : Node) : Node × FocusIntent :=
  let index := parent.children.findIdxId id
  if 0 < index then
    match parent.children.get? (index - 1) with
    | some prevSibling =>
      if ¬prevSibling.children = .nil ∧ prevSibling.collapsed = false then
        -- re-parent: parent.children.splice(index, 1);
        -- prevSibling.children.push(node)  (1576-1585)
        (mapFirst t parent.id (moveUpAbsorbFn (index - 1)), ⟨some id, Cursor.start⟩)
      else
        let withSpace : Bool :=
          prevSibling.text != "" && node.text != "" &&
            !endsWithSpace prevSibling.text && !startsWithSpace node.text
        let cursorTarget := prevSibling.text.length + (if withSpace then 1 else 0)
        (mapFirst t parent.id (backspaceMergeFn (index - 1)),
         ⟨some prevSibling.id, Cursor.offset cursorTarget⟩)
    | Option.none => (t, FocusIntent.noFocus)
      -- unreachable: the found node sits at `index < length`
  else
    if parent.id = viewRootId then (t, FocusIntent.noFocus)
    else
      match findNodeAndParent t parent.id with
      | some (_, some _) =>
        -- promote: parent.children.splice(index, 1);
        -- grandParent.children.splice(pIdx + 1, 0, node)  (1604-1615)
        (insertAfterFirst (removeFirstById t id) parent.id node,
         ⟨some id, Cursor.atEnd⟩)
      | _ => (t, FocusIntent.noFocus)

/-- `handleBackspace` (1546-1619) at cursor offset 0 (a positive
`selectionStart` returns with no effect at line 1548).  A node that has
children and is the first child of a non-view-root parent with a
grandparent is promoted (1558-1571); every other shape falls through to
`backspaceMain`. -/
def handleBackspace (viewRootId : String) (t : Node) (id : String) : Node × FocusIntent :=
  match findNodeAndParent t id with
  | Option.none => (t, FocusIntent.noFocus)
  | some (_, Option.none) => (t, FocusIntent.noFocus)
  | some (node, some parent) =>
    if ¬node.children = .nil ∧ parent.children.findIdxId id = 0 ∧
        parent.id ≠ viewRootId then
      match findNodeAndParent t parent.id with
      | some (_, some _) =>
        (insertAfterFirst (removeFirstById t id) parent.id node,
         ⟨some id, Cursor.atEnd⟩)
      | _ => backspaceMain viewRootId t id node parent
    else backspaceMain viewRootId t id node parent

/-- `handleDrop` (1839-1861) with the cycle check `isDescendant`
(272-281).  An empty `draggedId` models the null dragged state. -/
def handleDrop (t : Node) (draggedId targetId : String) : Node × FocusIntent :=
  if draggedId = "" ∨ draggedId = targetId then (t, FocusIntent.noFocus)
  else if isDescendant t draggedId targetId then (t, FocusIntent.noFocus)
  else
    match findNodeAndParent t draggedId, findNodeAndParent t targetId with
    | some (sourceNode, some _), some (_, some _) =>
      -- sourceParent.children.splice(sourceIndex, 1)
      let t1 := removeFirstById t draggedId
      -- fresh lookup of the target, then splice(targetIndex, 0, sourceNode)
      match findNodeAndParent t1 targetId with
      | some (_, some _) =>
        (insertBeforeFirst t1 targetId sourceNode, ⟨some draggedId, Cursor.none⟩)
      | _ => (t, FocusIntent.noFocus)
        -- `freshTargetResult.parent` TypeError: state not committed
    | _, _ => (t, FocusIntent.noFocus)

/-! ## The paste parser (`parseTextToNodes`, lines 916-947)

The source builds the forest through shared mutable `children` arrays held
in a depth stack.  Functionally, each stack frame carries the children
collected so far for its node; popping a frame writes them into that node
(the last node pushed into the frame below). -/

/-- Split a character list at every `'\n'`. -/
def splitNl : List Char → List (List Char)
  | [] => [[]]
  | '\n' :: cs => [] :: splitNl cs
  | c :: cs =>
    match splitNl cs with
    | [] => [[c]]
    | l :: ls => (c :: l) :: ls

/-- `text.split(/\r?\n/)` (line 917): split on `'\n'` and strip one
trailing `'\r'` from each piece. -/
def splitLines (s : String) : List String :=
  (splitNl s.data).map (fun l =>
    match l.getLast? with
    | some '\r' => ⟨l.dropLast⟩
    | _ => ⟨l⟩)

/-- Leading-whitespace width with tabs normalised to four spaces
(`indentString.replace(/\t/g, '    ').length`, lines 925-927). -/
def indentWidth : List Char → Nat
  | [] => 0
  | c :: cs =>
    if c = '\t' then 4 + indentWidth cs
    else if isJsWs c then 1 + indentWidth cs
    else 0

/-- `line.replace(/^\s*([-*]|\d+\.)\s+/, '')` (line 928): strip one
optional leading list marker (`-`, `*`, or digits followed by a dot),
together with the whitespace before it and at least one whitespace
character after it (greedily, as `\s+` does); an unmatched line is left
unchanged. -/
def stripMarker (l : String) : String :=
  let rest := l.data.dropWhile isJsWs
  let afterMarker : List Char → Option (List Char) := fun r =>
    match r with
    | c :: _ => if isJsWs c then some (r.dropWhile isJsWs) else Option.none
    | [] => Option.none
  let stripped : Option (List Char) :=
    match rest with
    | '-' :: r => afterMarker r
    | '*' :: r => afterMarker r
    | _ =>
      let ds := rest.takeWhile Char.isDigit
      if ds = [] then Option.none
      else
        match rest.drop ds.length with
        | '.' :: r => afterMarker r
        | _ => Option.none
  match stripped with
  | some r => ⟨r⟩
  | Option.none => l

/-- `cleanText` of a pasted line: marker stripping followed by `.trim()`. -/
def cleanLine (l : String) : String := jsTrim (stripMarker l)

/-- A parser stack frame `{ level, children }` (line 921). -/
abbrev PasteFrame := Int × Forest

/-- Attach `acc` as the children of the last node of `f`: the functional
counterpart of the shared-array mutation performed when a frame is
popped.  In every reachable state the last node exists and still has
empty children. -/
def setLastChildren : Forest → Forest → Forest
  | .nil, _ => .nil
  | .cons n .nil, acc => .cons (n.withChildren acc) .nil
  | .cons n (.cons m f), acc => .cons n (setLastChildren (.cons m f) acc)

/-- `while (stack.length > 1 && stack[stack.length - 1].level >=
indentLevel) stack.pop()` (lines 937-939); the stack is kept top-first and
the fuel (instantiated with the stack length) makes the loop structural. -/
def popFrames : Nat → List PasteFrame → Int → List PasteFrame
  | 0, s, _ => s
  | fuel + 1, (l, acc) :: (l', acc') :: rest, lvl =>
    if lvl ≤ l then popFrames fuel ((l', setLastChildren acc' acc) :: rest) lvl
    else (l, acc) :: (l', acc') :: rest
  | _ + 1, s, _ => s

/-- Process one pasted line (lines 923-944); the state is the frame stack
and the `GENERATE_ID` counter. -/
def pasteLine (gen : Nat → String) (st : List PasteFrame × Nat) (line : String) :
    List PasteFrame × Nat :=
  if jsTrim line = "" then st
  else
    let stack := st.1
    let c := st.2
    let indentLevel : Int := (indentWidth line.data : Nat)
    let newNode : Node := .mk (gen c) (cleanLine line) false .nil
    let stack1 := popFrames stack.length stack indentLevel
    let stack2 :=
      match stack1 with
      | (l, acc) :: rest => (l, acc.append (Forest.single newNode)) :: rest
      | [] => []   -- unreachable: the bottom frame is never popped
    (((indentLevel, Forest.nil) : PasteFrame) :: stack2, c + 1)

/-- Pop every remaining frame and return the bottom frame's children
(`rootNodes`; implicit in the source through the shared references). -/
def finishStack : Nat → List PasteFrame → Forest
  | _, [] => .nil
  | _, [(_, acc)] => acc
  | 0, (_, acc) :: _ => acc   -- unreachable with fuel = length
  | fuel + 1, (_, acc) :: (l', acc') :: rest =>
    finishStack fuel ((l', setLastChildren acc' acc) :: rest)

/-- `parseTextToNodes(text)` (lines 916-947) with `GENERATE_ID` modelled
by `gen` applied to the successive counters `0, 1, 2, …` (one per
non-blank line). -/
def parseTextToNodes (gen : Nat → String) (text : String) : Forest :=
  let lines := splitLines text
  let st := lines.foldl (pasteLine gen) ([((-1 : Int), Forest.nil)], 0)
  finishStack st.1.length st.1

/-- `handlePaste` (1256-1273) tree effect: splice the parsed forest in as
the next siblings of the target node.  A paste without a newline is left
to the default text-input behaviour. -/
def handlePasteTree (t : Node) (id : String) (gen : Nat → String) (pasted : String) :
    Node :=
  if ¬pasted.data.contains '\n' then t
  else
    let newNodes := parseTextToNodes gen pasted
    if newNodes = .nil then t
    else
      match findNodeAndParent t id with
      | Option.none => t
      | some (_, Option.none) => t
        -- `parent.children` of `null`: TypeError, state not committed
      | some (_, some parent) =>
        let index := parent.children.findIdxId id
        mapFirst t parent.id (fun p =>
          p.withChildren (p.children.insertManyAt (index + 1) newNodes))

/-! ## Induction principles -/

/-- Simultaneous induction over a node and a forest. -/
theorem nodeForestInd {P : Node → Prop} {Q : Forest → Prop}
    (hmk : ∀ i t b f, Q f → P (Node.mk i t b f))
    (hnil : Q Forest.nil)
    (hcons : ∀ n f, P n → Q f → Q (Forest.cons n f)) :
    (∀ n, P n) ∧ (∀ f, Q f) :=
  ⟨fun n => Node.rec hmk hnil hcons n, fun f => Forest.rec hmk hnil hcons f⟩

/-- Spine induction over a forest, for properties that do not recurse into
the nodes. -/
theorem forestInd {Q : Forest → Prop} (hnil : Q Forest.nil)
    (hcons : ∀ n f, Q f → Q (Forest.cons n f)) : ∀ f, Q f :=
  (@nodeForestInd (fun _ => True) Q (fun _ _ _ _ _ => trivial) hnil
    (fun n f _ hq => hcons n f hq)).2

/-! ## Multiset arithmetic of the forest operations -/

@[simp] theorem Node.mids_withText (n : Node) (s : String) :
    (n.withText s).mids = n.mids := by
  obtain ⟨i, t, b, f⟩ := n; simp [Node.withText]

@[simp] theorem Node.mids_withCollapsed (n : Node) (b : Bool) :
    (n.withCollapsed b).mids = n.mids := by
  obtain ⟨i, t, b', f⟩ := n; simp [Node.withCollapsed]

@[simp] theorem Node.mids_withChildren (n : Node) (g : Forest) :
    (n.withChildren g).mids = n.id ::ₘ g.midsF := by
  obtain ⟨i, t, b, f⟩ := n; simp [Node.withChildren]

@[simp] theorem Node.id_withChildren (n : Node) (g : Forest) :
    (n.withChildren g).id = n.id := by
  obtain ⟨i, t, b, f⟩ := n; simp [Node.withChildren]

@[simp] theorem Node.mids_self (n : Node) :
    n.id ::ₘ n.children.midsF = n.mids := by
  obtain ⟨i, t, b, f⟩ := n; simp

@[simp] theorem Forest.midsF_single (n : Node) :
    (Forest.single n).midsF = n.mids := by
  simp [Forest.single]

@[simp] theorem Forest.midsF_append (f g : Forest) :
    (f.append g).midsF = f.midsF + g.midsF := by
  induction f using forestInd with
  | hnil => simp [Forest.append]
  | hcons n f ih => simp [Forest.append, ih, add_assoc]

theorem Forest.midsF_eraseIdx_get (f : Forest) (k : Nat) (n : Node)
    (h : f.get? k = some n) : (f.eraseIdx k).midsF + n.mids = f.midsF := by
  induction f using forestInd generalizing k with
  | hnil => simp [Forest.get?] at h
  | hcons m f ih =>
    cases k with
    | zero =>
      simp [Forest.get?] at h
      subst h
      simp [Forest.eraseIdx, add_comm]
    | succ k =>
      simp [Forest.get?] at h
      simp [Forest.eraseIdx, Forest.midsF_cons, add_assoc, ih k h]

theorem Forest.midsF_eraseIdx_le (f : Forest) (k : Nat) :
    (f.eraseIdx k).midsF ≤ f.midsF := by
  induction f using forestInd generalizing k with
  | hnil => simp [Forest.eraseIdx]
  | hcons m f ih =>
    cases k with
    | zero => simp [Forest.eraseIdx, le_add_self]
    | succ k =>
      simp only [Forest.eraseIdx, Forest.midsF_cons]
      exact add_le_add_left (ih k) _

theorem Forest.midsF_set_get (f : Forest) (k : Nat) (n x : Node)
    (h : f.get? k = some n) : (f.set k x).midsF + n.mids = f.midsF + x.mids := by
  induction f using forestInd generalizing k with
  | hnil => simp [Forest.get?] at h
  | hcons m f ih =>
    cases k with
    | zero =>
      simp [Forest.get?] at h
      subst h
      simp only [Forest.set, Forest.midsF_cons]
      abel
    | succ k =>
      simp [Forest.get?] at h
      have hk := ih k h
      simp only [Forest.set, Forest.midsF_cons]
      calc m.mids + (f.set k x).midsF + n.mids
          = m.mids + ((f.set k x).midsF + n.mids) := by abel
        _ = m.mids + (f.midsF + x.mids) := by rw [hk]
        _ = m.mids + f.midsF + x.mids := by abel

@[simp] theorem Forest.midsF_insertAt (f : Forest) (k : Nat) (x : Node) :
    (f.insertAt k x).midsF = f.midsF + x.mids := by
  induction f using forestInd generalizing k with
  | hnil => cases k <;> simp [Forest.insertAt, add_comm]
  | hcons m f ih =>
    cases k with
    | zero => simp [Forest.insertAt, add_comm]
    | succ k => simp [Forest.insertAt, ih k, add_assoc]

@[simp] theorem Forest.midsF_insertManyAt (f : Forest) (k : Nat) (xs : Forest) :
    (f.insertManyAt k xs).midsF = f.midsF + xs.midsF := by
  induction f using forestInd generalizing k with
  | hnil => cases k <;> simp [Forest.insertManyAt, add_comm]
  | hcons m f ih =>
    cases k with
    | zero => simp [Forest.insertManyAt, add_comm]
    | succ k => simp [Forest.insertManyAt, ih k, add_assoc]

theorem Forest.get?_eraseIdx_lt (f : Forest) (i j : Nat) (h : i < j) :
    (f.eraseIdx j).get? i = f.get? i := by
  induction f using forestInd generalizing i j with
  | hnil => simp [Forest.eraseIdx]
  | hcons m f ih =>
    cases j with
    | zero => omega
    | succ j =>
      cases i with
      | zero => simp [Forest.eraseIdx, Forest.get?]
      | succ i => simpa [Forest.eraseIdx, Forest.get?] using ih i j (by omega)

theorem Forest.get?_eraseIdx_ge (f : Forest) (i j : Nat) (h : j ≤ i) :
    (f.eraseIdx j).get? i = f.get? (i + 1) := by
  induction f using forestInd generalizing i j with
  | hnil => simp [Forest.eraseIdx, Forest.get?]
  | hcons m f ih =>
    cases j with
    | zero => simp [Forest.eraseIdx, Forest.get?]
    | succ j =>
      cases i with
      | zero => omega
      | succ i => simpa [Forest.eraseIdx, Forest.get?] using ih i j (by omega)

theorem Forest.get?_set_ne (f : Forest) (i j : Nat) (x : Node) (h : i ≠ j) :
    (f.set j x).get? i = f.get? i := by
  induction f using forestInd generalizing i j with
  | hnil => simp [Forest.set]
  | hcons m f ih =>
    cases j with
    | zero =>
      cases i with
      | zero => omega
      | succ i => simp [Forest.set, Forest.get?]
    | succ j =>
      cases i with
      | zero => simp [Forest.set, Forest.get?]
      | succ i => simpa [Forest.set, Forest.get?] using ih i j (by omega)

/-! ## Lookup lemmas -/

theorem fnap_id_eq_aux (tid : String) :
    (∀ t : Node, ∀ par n q, fnapN tid par t = some (n, q) → n.id = tid) ∧
    (∀ f : Forest, ∀ par n q, fnapF tid par f = some (n, q) → n.id = tid) := by
  refine nodeForestInd ?_ ?_ ?_
  · intro i s b f ih par n q h
    simp only [fnapN] at h
    by_cases hi : i = tid
    · rw [if_pos hi] at h
      simp only [Option.some.injEq, Prod.mk.injEq] at h
      rw [← h.1, Node.id_mk, hi]
    · rw [if_neg hi] at h
      exact ih _ n q h
  · intro par n q h
    simp [fnapF] at h
  · intro c rest ihc ihr par n q h
    simp only [fnapF] at h
    rcases hc : fnapN tid (some par) c with _ | r
    · rw [hc] at h
      exact ihr par n q h
    · rw [hc] at h
      obtain ⟨n₀, q₀⟩ := r
      simp only [Option.some.injEq, Prod.mk.injEq] at h
      rw [← h.1]
      exact ihc (some par) n₀ q₀ hc

/-- `findNodeAndParent` returns a node whose id is exactly the queried
id. -/
theorem findNodeAndParent_id_eq (t : Node) (tid : String) (n : Node)
    (q : Option Node) (h : findNodeAndParent t tid = some (n, q)) : n.id = tid :=
  (fnap_id_eq_aux tid).1 t Option.none n q h

theorem fnap_none_iff_aux (tid : String) :
    (∀ t : Node, ∀ par, fnapN tid par t = Option.none ↔ tid ∉ t.ids) ∧
    (∀ f : Forest, ∀ par, fnapF tid par f = Option.none ↔ tid ∉ f.idsF) := by
  refine nodeForestInd ?_ ?_ ?_
  · intro i s b f ih par
    simp only [fnapN]
    by_cases hi : i = tid
    · simp [hi]
    · simp only [if_neg hi, Node.ids_mk, List.mem_cons]
      rw [ih]
      constructor
      · intro hn hmem
        rcases hmem with h1 | h2
        · exact hi h1.symm
        · exact hn h2
      · intro hn hmem
        exact hn (Or.inr hmem)
  · intro par
    simp [fnapF]
  · intro c rest ihc ihr par
    simp only [fnapF, Forest.idsF_cons, List.mem_append]
    rcases hc : fnapN tid (some par) c with _ | r
    · have hcnot : tid ∉ c.ids := (ihc (some par)).1 hc
      rw [ihr par]
      constructor
      · intro hn hmem
        rcases hmem with h1 | h2
        · exact hcnot h1
        · exact hn h2
      · intro hn hmem
        exact hn (Or.inr hmem)
    · have hne : ¬(fnapN tid (some par) c = Option.none) := by simp [hc]
      have hcmem : tid ∈ c.ids := by
        by_contra hx
        exact hne ((ihc (some par)).2 hx)
      constructor
      · intro h
        cases h
      · intro hn
        exact absurd (Or.inl hcmem) hn

theorem fnap_parent_some_aux (tid : String) :
    (∀ t : Node, ∀ p n q, fnapN tid (some p) t = some (n, q) → ∃ r, q = some r) ∧
    (∀ f : Forest, ∀ par n q, fnapF tid par f = some (n, q) → ∃ r, q = some r) := by
  refine nodeForestInd ?_ ?_ ?_
  · intro i s b f ih p n q h
    simp only [fnapN] at h
    by_cases hi : i = tid
    · rw [if_pos hi] at h
      simp only [Option.some.injEq, Prod.mk.injEq] at h
      exact ⟨p, h.2.symm⟩
    · rw [if_neg hi] at h
      exact ih _ n q h
  · intro par n q h
    simp [fnapF] at h
  · intro c rest ihc ihr par n q h
    simp only [fnapF] at h
    rcases hc : fnapN tid (some par) c with _ | r
    · rw [hc] at h
      exact ihr par n q h
    · rw [hc] at h
      obtain ⟨n₀, q₀⟩ := r
      simp only [Option.some.injEq, Prod.mk.injEq] at h
      rw [← h.2]
      exact ihc par n₀ q₀ hc

/-- A `findNodeAndParent` result carrying a `null` parent can only be the
root itself. -/
theorem findNodeAndParent_root (t : Node) (tid : String) (n : Node)
    (h : findNodeAndParent t tid = some (n, Option.none)) : n = t ∧ t.id = tid := by
  obtain ⟨i, s, b, f⟩ := t
  simp only [findNodeAndParent, fnapN] at h
  by_cases hi : i = tid
  · rw [if_pos hi] at h
    simp only [Option.some.injEq, Prod.mk.injEq] at h
    exact ⟨h.1.symm, hi⟩
  · rw [if_neg hi] at h
    obtain ⟨r, hr⟩ := (fnap_parent_some_aux tid).2 f _ n Option.none h
    cases hr

/-- A non-root id present in the document is found together with its
parent. -/
theorem findNodeAndParent_of_mem (t : Node) (tid : String)
    (hmem : tid ∈ t.ids) (hne : tid ≠ t.id) :
    ∃ n p, findNodeAndParent t tid = some (n, some p) := by
  rcases hfind : findNodeAndParent t tid with _ | r
  · exact absurd hmem (((fnap_none_iff_aux tid).1 t Option.none).1 hfind)
  · obtain ⟨n, q⟩ := r
    rcases q with _ | p
    · obtain ⟨_, hid⟩ := findNodeAndParent_root t tid n hfind
      exact absurd hid.symm hne
    · exact ⟨n, p, rfl⟩

/-! ## Extraction lemmas -/

theorem extract_mids_aux (cid : String) :
    (∀ t : Node, ∀ n, (extractFirstN cid t).2 = some n →
       (extractFirstN cid t).1.mids + n.mids = t.mids) ∧
    (∀ f : Forest, ∀ n, (extractFirstF cid f).2 = some n →
       (extractFirstF cid f).1.midsF + n.mids = f.midsF) := by
  refine nodeForestInd ?_ ?_ ?_
  · intro i s b f ih n h
    rcases hf : extractFirstF cid f with ⟨f', r⟩
    simp only [extractFirstN, hf] at h
    subst h
    have hm : f'.midsF + n.mids = f.midsF := by
      have h0 := ih n (by rw [hf])
      rw [hf] at h0
      exact h0
    simp only [extractFirstN, hf, Node.mids_mk, Multiset.cons_add, hm]
  · intro n h
    simp [extractFirstF] at h
  · intro c rest ihc ihr n h
    by_cases hc : c.id = cid
    · simp only [extractFirstF, if_pos hc] at h ⊢
      have hn : c = n := by
        simpa using h
      subst hn
      simp only [Forest.midsF_cons]
      abel
    · rcases he : extractFirstN cid c with ⟨c', r⟩
      rcases r with _ | m
      · rcases hr : extractFirstF cid rest with ⟨rest', r'⟩
        simp only [extractFirstF, if_neg hc, he, hr] at h ⊢
        have hr' : r' = some n := h
        subst hr'
        have hm : rest'.midsF + n.mids = rest.midsF := by
          have h0 := ihr n (by rw [hr])
          rw [hr] at h0
          exact h0
        simp only [Forest.midsF_cons, add_assoc, hm]
      · simp only [extractFirstF, if_neg hc, he] at h ⊢
        have hmn : m = n := by simpa using h
        subst hmn
        have hm : c'.mids + m.mids = c.mids := by
          have h0 := ihc m (by rw [he])
          rw [he] at h0
          exact h0
        simp only [Forest.midsF_cons]
        calc c'.mids + rest.midsF + m.mids
            = (c'.mids + m.mids) + rest.midsF := by abel
          _ = c.mids + rest.midsF := by rw [hm]

theorem extract_none_eq_aux (cid : String) :
    (∀ t : Node, (extractFirstN cid t).2 = Option.none → (extractFirstN cid t).1 = t) ∧
    (∀ f : Forest, (extractFirstF cid f).2 = Option.none → (extractFirstF cid f).1 = f) := by
  refine nodeForestInd ?_ ?_ ?_
  · intro i s b f ih h
    rcases hf : extractFirstF cid f with ⟨f', r⟩
    simp only [extractFirstN, hf] at h
    subst h
    have hm : f' = f := by
      have h0 := ih (by rw [hf])
      rw [hf] at h0
      exact h0
    simp only [extractFirstN, hf, hm]
  · intro _
    simp [extractFirstF]
  · intro c rest ihc ihr h
    by_cases hc : c.id = cid
    · simp only [extractFirstF, if_pos hc] at h
      cases h
    · rcases he : extractFirstN cid c with ⟨c', r⟩
      rcases r with _ | m
      · rcases hr : extractFirstF cid rest with ⟨rest', r'⟩
        simp only [extractFirstF, if_neg hc, he, hr] at h ⊢
        have hr' : r' = Option.none := h
        subst hr'
        have hm : rest' = rest := by
          have h0 := ihr (by rw [hr])
          rw [hr] at h0
          exact h0
        rw [hm]
      · simp only [extractFirstF, if_neg hc, he] at h
        cases h

theorem extract_notmem_aux (cid : String) :
    (∀ t : Node, cid ∉ t.children.idsF → (extractFirstN cid t).2 = Option.none) ∧
    (∀ f : Forest, cid ∉ f.idsF → (extractFirstF cid f).2 = Option.none) := by
  refine nodeForestInd ?_ ?_ ?_
  · intro i s b f ih h
    simp only [Node.children_mk] at h
    rcases hf : extractFirstF cid f with ⟨f', r⟩
    have h0 := ih h
    rw [hf] at h0
    simp only [extractFirstN, hf]
    exact h0
  · intro _
    simp [extractFirstF]
  · intro c rest ihc ihr h
    simp only [Forest.idsF_cons, List.mem_append, not_or] at h
    obtain ⟨h1, h2⟩ := h
    have hcne : ¬c.id = cid := by
      intro hx
      apply h1
      rw [← hx]
      obtain ⟨i, s, b, f⟩ := c
      simp
    have hcn : (extractFirstN cid c).2 = Option.none := by
      apply ihc
      intro hx
      apply h1
      obtain ⟨i, s, b, f⟩ := c
      simp only [Node.children_mk] at hx
      simp [hx]
    rcases he : extractFirstN cid c with ⟨c', r⟩
    rw [he] at hcn
    have hr : r = Option.none := hcn
    subst hr
    rcases hrr : extractFirstF cid rest with ⟨rest', r'⟩
    have h0 := ihr h2
    rw [hrr] at h0
    simp only [extractFirstF, if_neg hcne, he, hrr]
    exact h0

/-- The root of the tree is untouched by an extraction. -/
theorem extract_root_id (t : Node) (cid : String) :
    (extractFirstN cid t).1.id = t.id := by
  obtain ⟨i, s, b, f⟩ := t
  rcases hf : extractFirstF cid f with ⟨f', r⟩
  simp [extractFirstN, hf]

/-- Bridge between `findNodeAndParent` and `extractFirstN`: a node found
with a parent is exactly the node the extraction removes. -/
theorem fnap_extract_bridge_aux (cid : String) :
    (∀ t : Node, ∀ par n q, fnapN cid par t = some (n, q) →
       (n = t ∧ q = par ∧ t.id = cid) ∨
       ((extractFirstN cid t).2 = some n ∧ t.id ≠ cid)) ∧
    (∀ f : Forest, ∀ par n q, fnapF cid par f = some (n, q) →
       (extractFirstF cid f).2 = some n) := by
  refine nodeForestInd ?_ ?_ ?_
  · intro i s b f ih par n q h
    simp only [fnapN] at h
    by_cases hi : i = cid
    · rw [if_pos hi] at h
      simp only [Option.some.injEq, Prod.mk.injEq] at h
      exact Or.inl ⟨h.1.symm, h.2.symm, by simpa using hi⟩
    · rw [if_neg hi] at h
      have hf := ih _ n q h
      rcases hef : extractFirstF cid f with ⟨f', r⟩
      rw [hef] at hf
      refine Or.inr ⟨?_, by simpa using hi⟩
      simp only [extractFirstN, hef]
      exact hf
  · intro par n q h
    simp [fnapF] at h
  · intro c rest ihc ihr par n q h
    simp only [fnapF] at h
    rcases hc : fnapN cid (some par) c with _ | r
    · rw [hc] at h
      have hrest := ihr par n q h
      have hcnot : cid ∉ c.ids := ((fnap_none_iff_aux cid).1 c (some par)).1 hc
      have hcne : ¬c.id = cid := by
        intro hx
        apply hcnot
        rw [← hx]
        obtain ⟨i, s, b, f⟩ := c
        simp
      have hcn : (extractFirstN cid c).2 = Option.none := by
        apply (extract_notmem_aux cid).1
        intro hx
        apply hcnot
        obtain ⟨i, s, b, f⟩ := c
        simp only [Node.children_mk] at hx
        simp [hx]
      rcases he : extractFirstN cid c with ⟨c', r⟩
      rw [he] at hcn
      have hr0 : r = Option.none := hcn
      subst hr0
      rcases hrr : extractFirstF cid rest with ⟨rest', r'⟩
      rw [hrr] at hrest
      simp only [extractFirstF, if_neg hcne, he, hrr]
      exact hrest
    · rw [hc] at h
      obtain ⟨n₀, q₀⟩ := r
      simp only [Option.some.injEq, Prod.mk.injEq] at h
      have hn₀ : n₀ = n := h.1
      subst hn₀
      rcases ihc (some par) n₀ q₀ hc with ⟨hn, _, hid⟩ | ⟨hext, hne⟩
      · rw [hn]
        simp only [extractFirstF, if_pos hid]
      · rcases he : extractFirstN cid c with ⟨c', r⟩
        rw [he] at hext
        have hr0 : r = some n₀ := hext
        subst hr0
        simp only [extractFirstF, if_neg hne, he]

/-- When `findNodeAndParent` locates `cid` below the root, the extraction
removes exactly that subtree from the id pool. -/
theorem removeFirstById_mids (t : Node) (cid : String) (n p : Node)
    (h : findNodeAndParent t cid = some (n, some p)) :
    (removeFirstById t cid).mids + n.mids = t.mids := by
  rcases (fnap_extract_bridge_aux cid).1 t Option.none n (some p) h with
    ⟨_, hq, _⟩ | ⟨hext, _⟩
  · cases hq
  · exact (extract_mids_aux cid).1 t n hext

/-- A removal never grows the id pool. -/
theorem removeFirstById_mids_le (t : Node) (cid : String) :
    (removeFirstById t cid).mids ≤ t.mids := by
  rcases he : (extractFirstN cid t).2 with _ | n
  · rw [removeFirstById, (extract_none_eq_aux cid).1 t he]
  · have := (extract_mids_aux cid).1 t n he
    rw [removeFirstById, ← this]
    exact le_add_right le_rfl

/-! ## Insertion lemmas -/

theorem insBefore_mids_aux (tid : String) (x : Node) :
    (∀ t : Node, ((insBeforeN tid x t).2 = true →
       (insBeforeN tid x t).1.mids = t.mids + x.mids) ∧
       ((insBeforeN tid x t).2 = false → (insBeforeN tid x t).1 = t)) ∧
    (∀ f : Forest, ((insBeforeF tid x f).2 = true →
       (insBeforeF tid x f).1.midsF = f.midsF + x.mids) ∧
       ((insBeforeF tid x f).2 = false → (insBeforeF tid x f).1 = f)) := by
  refine nodeForestInd ?_ ?_ ?_
  · intro i s b f ih
    rcases hf : insBeforeF tid x f with ⟨f', fd⟩
    constructor
    · intro h
      simp only [insBeforeN, hf] at h ⊢
      have hm : f'.midsF = f.midsF + x.mids := by
        have h0 := ih.1 (by rw [hf]; exact h)
        rw [hf] at h0
        exact h0
      simp only [Node.mids_mk, hm, Multiset.cons_add]
    · intro h
      simp only [insBeforeN, hf] at h ⊢
      have hm : f' = f := by
        have h0 := ih.2 (by rw [hf]; exact h)
        rw [hf] at h0
        exact h0
      rw [hm]
  · constructor
    · intro h
      simp [insBeforeF] at h
    · intro _
      simp [insBeforeF]
  · intro c rest ihc ihr
    by_cases hc : c.id = tid
    · constructor
      · intro _
        simp only [insBeforeF, if_pos hc, Forest.midsF_cons]
        abel
      · intro h
        simp only [insBeforeF, if_pos hc] at h
        cases h
    · rcases he : insBeforeN tid x c with ⟨c', fd⟩
      rcases fd with _ | _
      · rcases hr : insBeforeF tid x rest with ⟨rest', fd'⟩
        constructor
        · intro h
          simp only [insBeforeF, if_neg hc, he, hr] at h ⊢
          have hm : rest'.midsF = rest.midsF + x.mids := by
            have h0 := ihr.1 (by rw [hr]; exact h)
            rw [hr] at h0
            exact h0
          simp only [Forest.midsF_cons, hm]
          abel
        · intro h
          simp only [insBeforeF, if_neg hc, he, hr] at h ⊢
          have hm : rest' = rest := by
            have h0 := ihr.2 (by rw [hr]; exact h)
            rw [hr] at h0
            exact h0
          rw [hm]
      · constructor
        · intro _
          simp only [insBeforeF, if_neg hc, he, Forest.midsF_cons]
          have hm : c'.mids = c.mids + x.mids := by
            have h0 := ihc.1 (by rw [he])
            rw [he] at h0
            exact h0
          rw [hm]
          abel
        · intro h
          simp only [insBeforeF, if_neg hc, he] at h
          simp at h

theorem insAfter_mids_aux (tid : String) (x : Node) :
    (∀ t : Node, ((insAfterN tid x t).2 = true →
       (insAfterN tid x t).1.mids = t.mids + x.mids) ∧
       ((insAfterN tid x t).2 = false → (insAfterN tid x t).1 = t)) ∧
    (∀ f : Forest, ((insAfterF tid x f).2 = true →
       (insAfterF tid x f).1.midsF = f.midsF + x.mids) ∧
       ((insAfterF tid x f).2 = false → (insAfterF tid x f).1 = f)) := by
  refine nodeForestInd ?_ ?_ ?_
  · intro i s b f ih
    rcases hf : insAfterF tid x f with ⟨f', fd⟩
    constructor
    · intro h
      simp only [insAfterN, hf] at h ⊢
      have hm : f'.midsF = f.midsF + x.mids := by
        have h0 := ih.1 (by rw [hf]; exact h)
        rw [hf] at h0
        exact h0
      simp only [Node.mids_mk, hm, Multiset.cons_add]
    · intro h
      simp only [insAfterN, hf] at h ⊢
      have hm : f' = f := by
        have h0 := ih.2 (by rw [hf]; exact h)
        rw [hf] at h0
        exact h0
      rw [hm]
  · constructor
    · intro h
      simp [insAfterF] at h
    · intro _
      simp [insAfterF]
  · intro c rest ihc ihr
    by_cases hc : c.id = tid
    · constructor
      · intro _
        simp only [insAfterF, if_pos hc, Forest.midsF_cons]
        abel
      · intro h
        simp only [insAfterF, if_pos hc] at h
        cases h
    · rcases he : insAfterN tid x c with ⟨c', fd⟩
      rcases fd with _ | _
      · rcases hr : insAfterF tid x rest with ⟨rest', fd'⟩
        constructor
        · intro h
          simp only [insAfterF, if_neg hc, he, hr] at h ⊢
          have hm : rest'.midsF = rest.midsF + x.mids := by
            have h0 := ihr.1 (by rw [hr]; exact h)
            rw [hr] at h0
            exact h0
          simp only [Forest.midsF_cons, hm]
          abel
        · intro h
          simp only [insAfterF, if_neg hc, he, hr] at h ⊢
          have hm : rest' = rest := by
            have h0 := ihr.2 (by rw [hr]; exact h)
            rw [hr] at h0
            exact h0
          rw [hm]
      · constructor
        · intro _
          simp only [insAfterF, if_neg hc, he, Forest.midsF_cons]
          have hm : c'.mids = c.mids + x.mids := by
            have h0 := ihc.1 (by rw [he])
            rw [he] at h0
            exact h0
          rw [hm]
          abel
        · intro h
          simp only [insAfterF, if_neg hc, he] at h
          simp at h

theorem insertBeforeFirst_mids_le (t : Node) (tid : String) (x : Node) :
    (insertBeforeFirst t tid x).mids ≤ t.mids + x.mids := by
  unfold insertBeforeFirst
  by_cases hr : t.id = tid
  · rw [if_pos hr]
    exact le_add_right le_rfl
  · rw [if_neg hr]
    rcases hb : (insBeforeN tid x t).2 with _ | _
    · rw [((insBefore_mids_aux tid x).1 t).2 hb]
      exact le_add_right le_rfl
    · rw [((insBefore_mids_aux tid x).1 t).1 hb]

theorem insertAfterFirst_mids_le (t : Node) (tid : String) (x : Node) :
    (insertAfterFirst t tid x).mids ≤ t.mids + x.mids := by
  unfold insertAfterFirst
  by_cases hr : t.id = tid
  · rw [if_pos hr]
    exact le_add_right le_rfl
  · rw [if_neg hr]
    rcases hb : (insAfterN tid x t).2 with _ | _
    · rw [((insAfter_mids_aux tid x).1 t).2 hb]
      exact le_add_right le_rfl
    · rw [((insAfter_mids_aux tid x).1 t).1 hb]

/-- The detach-and-reinsert pattern shared by `handleShiftTab`,
`handleBackspace`'s promotions, `handleMoveNode`'s boundary moves and
`handleDrop` never grows the id pool: the reinserted node is exactly the
one the removal detached. -/
theorem remove_insertAfter_mids_le (t : Node) (cid : String) (n p : Node)
    (h : findNodeAndParent t cid = some (n, some p)) (q : String) :
    (insertAfterFirst (removeFirstById t cid) q n).mids ≤ t.mids := by
  calc (insertAfterFirst (removeFirstById t cid) q n).mids
      ≤ (removeFirstById t cid).mids + n.mids := insertAfterFirst_mids_le _ q n
    _ = t.mids := removeFirstById_mids t cid n p h

theorem remove_insertBefore_mids_le (t : Node) (cid : String) (n p : Node)
    (h : findNodeAndParent t cid = some (n, some p)) (q : String) :
    (insertBeforeFirst (removeFirstById t cid) q n).mids ≤ t.mids := by
  calc (insertBeforeFirst (removeFirstById t cid) q n).mids
      ≤ (removeFirstById t cid).mids + n.mids := insertBeforeFirst_mids_le _ q n
    _ = t.mids := removeFirstById_mids t cid n p h

/-! ## Rewrite lemmas -/

theorem mapFirst_mids_le_aux (tid : String) (g : Node → Node) (e : Multiset String)
    (hg : ∀ n, (g n).mids ≤ n.mids + e) :
    (∀ t : Node, (mapFirstN tid g t).1.mids ≤ t.mids + e) ∧
    (∀ f : Forest, (mapFirstF tid g f).1.midsF ≤ f.midsF + e) := by
  refine nodeForestInd ?_ ?_ ?_
  · intro i s b f ih
    simp only [mapFirstN]
    by_cases hi : i = tid
    · rw [if_pos hi]
      exact hg _
    · rw [if_neg hi]
      rcases hf : mapFirstF tid g f with ⟨f', fd⟩
      rw [hf] at ih
      have ih' : f'.midsF ≤ f.midsF + e := ih
      simp only [hf, Node.mids_mk]
      rw [Multiset.cons_add]
      exact Multiset.cons_le_cons i ih'
  · simp [mapFirstF]
  · intro c rest ihc ihr
    rcases he : mapFirstN tid g c with ⟨c', fd⟩
    rw [he] at ihc
    rcases fd with _ | _
    · rcases hr : mapFirstF tid g rest with ⟨rest', fd'⟩
      rw [hr] at ihr
      simp only [mapFirstF, he, hr, Forest.midsF_cons]
      calc c.mids + rest'.midsF ≤ c.mids + (rest.midsF + e) :=
            add_le_add_left ihr _
        _ = c.mids + rest.midsF + e := by abel
    · simp only [mapFirstF, he, Forest.midsF_cons]
      calc c'.mids + rest.midsF ≤ (c.mids + e) + rest.midsF :=
            add_le_add_right ihc _
        _ = c.mids + rest.midsF + e := by abel

theorem mapFirst_mids_le (t : Node) (tid : String) (g : Node → Node)
    (e : Multiset String) (hg : ∀ n, (g n).mids ≤ n.mids + e) :
    (mapFirst t tid g).mids ≤ t.mids + e :=
  (mapFirst_mids_le_aux tid g e hg).1 t

/-- The common case: a rewrite that preserves the id pool of the node it
touches preserves the id pool of the document. -/
theorem mapFirst_mids_le_zero (t : Node) (tid : String) (g : Node → Node)
    (hg : ∀ n, (g n).mids ≤ n.mids) : (mapFirst t tid g).mids ≤ t.mids := by
  have := mapFirst_mids_le t tid g 0 (by intro n; simpa using hg n)
  simpa using this

/-! ## Distinct ids and cycle-freedom -/

/-- A sub-multiset of a duplicate-free id pool is duplicate-free. -/
theorem nodupIds_of_midsLe {t u : Node} (h : u.mids ≤ t.mids) (ht : t.ids.Nodup) :
    u.ids.Nodup := by
  have h1 : t.mids.Nodup := by
    simpa [Node.mids] using ht
  have h2 : u.mids.Nodup := Multiset.nodup_of_le h h1
  simpa [Node.mids] using h2

/-- Pairwise-distinct ids rule out any node being its own ancestor. -/
theorem acyclic_of_nodup_aux :
    (∀ t : Node, t.ids.Nodup → acyclicN t = true) ∧
    (∀ f : Forest, f.idsF.Nodup → acyclicF f = true) := by
  refine nodeForestInd ?_ ?_ ?_
  · intro i s b f ih h
    simp only [Node.ids_mk, List.nodup_cons] at h
    simp only [acyclicN, Bool.and_eq_true, Bool.not_eq_true']
    constructor
    · simpa using h.1
    · exact ih h.2
  · intro _
    simp [acyclicF]
  · intro c rest ihc ihr h
    simp only [Forest.idsF_cons] at h
    simp only [acyclicF, Bool.and_eq_true]
    exact ⟨ihc h.of_append_left, ihr h.of_append_right⟩

theorem acyclicN_of_nodup (t : Node) (h : t.ids.Nodup) : acyclicN t = true :=
  acyclic_of_nodup_aux.1 t h

theorem midsF_le_of_add_eq {a b c : Multiset String} (h : a + c = b) : a ≤ b :=
  h ▸ le_add_right le_rfl

/-! ## Id pools of the per-parent rewrite functions -/

theorem moveUpAbsorbFn_mids (j : Nat) (p : Node) :
    (moveUpAbsorbFn j p).mids = p.mids := by
  unfold moveUpAbsorbFn
  rcases h1 : p.children.get? (j + 1) with _ | nd
  · simp [h1]
  · rcases h2 : p.children.get? j with _ | pv
    · simp [h1, h2]
    · simp only [h1, h2]
      have hg : (p.children.eraseIdx (j + 1)).get? j = some pv := by
        rw [Forest.get?_eraseIdx_lt _ j (j + 1) (by omega)]
        exact h2
      have hset := Forest.midsF_set_get (p.children.eraseIdx (j + 1)) j pv
        (pv.withChildren (pv.children.append (Forest.single nd))) hg
      have her := Forest.midsF_eraseIdx_get p.children (j + 1) nd h1
      have hx : (pv.withChildren (pv.children.append (Forest.single nd))).mids
          = pv.mids + nd.mids := by
        simp only [Node.mids_withChildren, Forest.midsF_append, Forest.midsF_single]
        rw [← Multiset.cons_add, Node.mids_self]
      rw [hx] at hset
      have hS : ((p.children.eraseIdx (j + 1)).set j
          (pv.withChildren (pv.children.append (Forest.single nd)))).midsF + pv.mids
          = p.children.midsF + pv.mids := by
        rw [hset, ← her]
        abel
      have hS' := add_right_cancel hS
      simp only [Node.mids_withChildren, hS', Node.mids_self]

theorem swapFn_mids (j : Nat) (p : Node) : (swapFn j p).mids = p.mids := by
  unfold swapFn
  rcases h1 : p.children.get? (j + 1) with _ | nd
  · simp [h1]
  rcases h2 : p.children.get? j with _ | pv
  · simp [h1, h2]
  simp only [h1, h2]
  have hs1 := Forest.midsF_set_get p.children (j + 1) nd pv h1
  have hg : (p.children.set (j + 1) pv).get? j = some pv := by
    rw [Forest.get?_set_ne _ j (j + 1) pv (by omega)]
    exact h2
  have hs2 := Forest.midsF_set_get (p.children.set (j + 1) pv) j pv nd hg
  have hS : ((p.children.set (j + 1) pv).set j nd).midsF + pv.mids
      = p.children.midsF + pv.mids := by
    rw [hs2, hs1]
  have hS' := add_right_cancel hS
  simp only [Node.mids_withChildren, hS', Node.mids_self]

theorem moveDownAbsorbFn_mids (j : Nat) (p : Node) :
    (moveDownAbsorbFn j p).mids = p.mids := by
  unfold moveDownAbsorbFn
  rcases h1 : p.children.get? j with _ | nd
  · simp [h1]
  rcases h2 : p.children.get? (j + 1) with _ | nx
  · simp [h1, h2]
  simp only [h1, h2]
  have her := Forest.midsF_eraseIdx_get p.children j nd h1
  have hg : (p.children.eraseIdx j).get? j = some nx := by
    rw [Forest.get?_eraseIdx_ge _ j j (by omega)]
    exact h2
  have hx : (nx.withChildren (Forest.cons nd nx.children)).mids = nx.mids + nd.mids := by
    simp only [Node.mids_withChildren, Forest.midsF_cons]
    rw [add_comm nd.mids, ← Multiset.cons_add, Node.mids_self]
  have hset := Forest.midsF_set_get (p.children.eraseIdx j) j nx
    (nx.withChildren (Forest.cons nd nx.children)) hg
  rw [hx] at hset
  have hS : ((p.children.eraseIdx j).set j
      (nx.withChildren (Forest.cons nd nx.children))).midsF + nx.mids
      = p.children.midsF + nx.mids := by
    rw [hset, ← her]
    abel
  have hS' := add_right_cancel hS
  simp only [Node.mids_withChildren, hS', Node.mids_self]

theorem backspaceMergeFn_mids_le (j : Nat) (p : Node) :
    (backspaceMergeFn j p).mids ≤ p.mids := by
  unfold backspaceMergeFn
  rcases h1 : p.children.get? (j + 1) with _ | nd
  · simp [h1]
  rcases h2 : p.children.get? j with _ | pv
  · simp [h1, h2]
  simp only [h1, h2]
  have her := Forest.midsF_eraseIdx_get p.children (j + 1) nd h1
  have hg : (p.children.eraseIdx (j + 1)).get? j = some pv := by
    rw [Forest.get?_eraseIdx_lt _ j (j + 1) (by omega)]
    exact h2
  by_cases hnil : nd.children.isNil = true
  · rw [if_pos hnil]
    have hset := Forest.midsF_set_get (p.children.eraseIdx (j + 1)) j pv
      (Node.mk pv.id (pv.text ++
        (if (pv.text != "" && nd.text != "" && !endsWithSpace pv.text &&
            !startsWithSpace nd.text) = true then " " else "") ++ nd.text)
        pv.collapsed pv.children) hg
    have hx : (Node.mk pv.id (pv.text ++
        (if (pv.text != "" && nd.text != "" && !endsWithSpace pv.text &&
            !startsWithSpace nd.text) = true then " " else "") ++ nd.text)
        pv.collapsed pv.children).mids = pv.mids := by
      simp only [Node.mids_mk, Node.mids_self]
    rw [hx] at hset
    have hS := add_right_cancel hset
    rw [← Node.mids_self p]
    simp only [Node.mids_withChildren]
    refine Multiset.cons_le_cons _ ?_
    rw [hS]
    exact midsF_le_of_add_eq her
  · rw [if_neg hnil]
    have hset := Forest.midsF_set_get (p.children.eraseIdx (j + 1)) j pv
      (Node.mk pv.id (pv.text ++
        (if (pv.text != "" && nd.text != "" && !endsWithSpace pv.text &&
            !startsWithSpace nd.text) = true then " " else "") ++ nd.text)
        false (pv.children.append nd.children)) hg
    have hx : (Node.mk pv.id (pv.text ++
        (if (pv.text != "" && nd.text != "" && !endsWithSpace pv.text &&
            !startsWithSpace nd.text) = true then " " else "") ++ nd.text)
        false (pv.children.append nd.children)).mids
        = pv.mids + nd.children.midsF := by
      simp only [Node.mids_mk, Forest.midsF_append]
      rw [← Multiset.cons_add, Node.mids_self]
    rw [hx] at hset
    have hS : ((p.children.eraseIdx (j + 1)).set j
        (Node.mk pv.id (pv.text ++
          (if (pv.text != "" && nd.text != "" && !endsWithSpace pv.text &&
              !startsWithSpace nd.text) = true then " " else "") ++ nd.text)
          false (pv.children.append nd.children))).midsF + pv.mids
        = ((p.children.eraseIdx (j + 1)).midsF + nd.children.midsF) + pv.mids := by
      rw [hset]
      abel
    have hS' := add_right_cancel hS
    rw [← Node.mids_self p]
    simp only [Node.mids_withChildren]
    refine Multiset.cons_le_cons _ ?_
    rw [hS']
    have hfull : ((p.children.eraseIdx (j + 1)).midsF + nd.children.midsF)
        + {nd.id} = p.children.midsF := by
      rw [← her, ← Node.mids_self nd]
      have : (nd.id ::ₘ nd.children.midsF) = {nd.id} + nd.children.midsF := by
        rw [Multiset.singleton_add]
      rw [this]
      abel
    exact midsF_le_of_add_eq hfull

theorem midsF_set_withText (cs : Forest) (i : Nat) (nd : Node) (s : String)
    (h : cs.get? i = some nd) :
    (cs.set i (nd.withText s)).midsF = cs.midsF := by
  have hset := Forest.midsF_set_get cs i nd (nd.withText s) h
  rw [Node.mids_withText] at hset
  exact add_right_cancel hset

theorem enterInsertFn_mids (index : Nat) (newId : String) (p : Node) :
    (enterInsertFn index newId p).mids = p.mids + {newId} := by
  unfold enterInsertFn
  simp only [Node.mids_withChildren, Forest.midsF_insertAt, Node.mids_mk,
    Forest.midsF_nil]
  rw [Multiset.cons_zero, ← Multiset.cons_add, Node.mids_self]

theorem enterSplitSiblingFn_mids_le (index cursor : Nat) (newId : String) (p : Node) :
    (enterSplitSiblingFn index cursor newId p).mids ≤ p.mids + {newId} := by
  unfold enterSplitSiblingFn
  rcases h1 : p.children.get? index with _ | nd
  · simp only [h1]
    exact le_add_right le_rfl
  · simp only [h1]
    have hS := midsF_set_withText p.children index nd (jsTake nd.text cursor) h1
    simp only [Node.mids_withChildren, Forest.midsF_insertAt, hS, Node.mids_mk,
      Forest.midsF_nil]
    rw [Multiset.cons_zero, ← Multiset.cons_add, Node.mids_self]

theorem blurFn_mids_le (id : String) (p : Node) : (blurFn id p).mids ≤ p.mids := by
  unfold blurFn
  rcases hidx : p.children.findIdxId id with _ | j
  · rcases h1 : p.children.get? 0 with _ | nd
    · simp [h1]
    · simp only [h1]
      by_cases hcond : normalizeText nd.text = "" ∧ nd.children = .nil
      · rw [if_pos hcond]
        rw [← Node.mids_self p]
        simp only [Node.mids_withChildren]
        exact Multiset.cons_le_cons _ (Forest.midsF_eraseIdx_le _ _)
      · rw [if_neg hcond]
        have hS := midsF_set_withText p.children 0 nd (normalizeText nd.text) h1
        rw [← Node.mids_self p]
        simp only [Node.mids_withChildren, hS]
        exact le_rfl
  · rcases h1 : p.children.get? (j + 1) with _ | nd
    · simp [h1]
    · simp only [h1]
      by_cases hcond : normalizeText nd.text = "" ∧ nd.children = .nil
      · rw [if_pos hcond]
        rw [← Node.mids_self p]
        simp only [Node.mids_withChildren]
        exact Multiset.cons_le_cons _ (Forest.midsF_eraseIdx_le _ _)
      · rw [if_neg hcond]
        have hS := midsF_set_withText p.children (j + 1) nd (normalizeText nd.text) h1
        rcases h2 : (p.children.set (j + 1) (nd.withText (normalizeText nd.text))).get? j
          with _ | pv
        · simp only [h2]
          rw [← Node.mids_self p]
          simp only [Node.mids_withChildren, hS]
          exact le_rfl
        · simp only [h2]
          by_cases hp : jsTrim pv.text = "" ∧ pv.children = .nil
          · rw [if_pos hp]
            rw [← Node.mids_self p]
            simp only [Node.mids_withChildren]
            refine Multiset.cons_le_cons _ ?_
            calc ((p.children.set (j + 1)
                  (nd.withText (normalizeText nd.text))).eraseIdx j).midsF
                ≤ (p.children.set (j + 1)
                  (nd.withText (normalizeText nd.text))).midsF :=
                  Forest.midsF_eraseIdx_le _ _
              _ = p.children.midsF := hS
          · rw [if_neg hp]
            rw [← Node.mids_self p]
            simp only [Node.mids_withChildren, hS]
            exact le_rfl

/-! ## Whole-tree traversals preserve the id pool -/

theorem expandAll_mids_aux :
    (∀ t : Node, (expandAllN t).mids = t.mids) ∧
    (∀ f : Forest, (expandAllF f).midsF = f.midsF) := by
  refine nodeForestInd ?_ ?_ ?_
  · intro i s b f ih
    simp [expandAllN, ih]
  · simp [expandAllF]
  · intro c rest ihc ihr
    simp [expandAllF, ihc, ihr]

theorem collapseAll_mids_aux :
    (∀ t : Node, (collapseAllN t).mids = t.mids) ∧
    (∀ f : Forest, (collapseAllF f).midsF = f.midsF) := by
  refine nodeForestInd ?_ ?_ ?_
  · intro i s b f ih
    simp [collapseAllN, ih]
  · simp [collapseAllF]
  · intro c rest ihc ihr
    simp [collapseAllF, ihc, ihr]

theorem searchAndExpand_mids_aux (q : String) :
    (∀ t : Node, (searchAndExpandN q t).1.mids = t.mids) ∧
    (∀ f : Forest, (searchAndExpandF q f).1.midsF = f.midsF) := by
  refine nodeForestInd ?_ ?_ ?_
  · intro i s b f ih
    rcases hf : searchAndExpandF q f with ⟨f', ms, fl⟩
    have ih' : f'.midsF = f.midsF := by
      rw [hf] at ih
      exact ih
    simp [searchAndExpandN, hf, ih']
  · simp [searchAndExpandF]
  · intro c rest ihc ihr
    rcases he : searchAndExpandN q c with ⟨c', msc, fc⟩
    rcases hr : searchAndExpandF q rest with ⟨rest', msr, fr⟩
    have ihc' : c'.mids = c.mids := by
      rw [he] at ihc
      exact ihc
    have ihr' : rest'.midsF = rest.midsF := by
      rw [hr] at ihr
      exact ihr
    simp [searchAndExpandF, he, hr, ihc', ihr']

/-! ## Every structural operation keeps ids pairwise distinct -/

theorem handleUpdateTextTree_mids_le (t : Node) (id s : String) :
    (handleUpdateTextTree t id s).mids ≤ t.mids := by
  apply mapFirst_mids_le_zero
  intro n
  rw [Node.mids_withText]

theorem handleToggleCollapseTree_mids_le (t : Node) (id : String) :
    (handleToggleCollapseTree t id).mids ≤ t.mids := by
  apply mapFirst_mids_le_zero
  intro n
  rw [Node.mids_withCollapsed]

theorem setCollapseStateTree_mids_le (t : Node) (id : String) (b : Bool) :
    (setCollapseStateTree t id b).mids ≤ t.mids := by
  apply mapFirst_mids_le_zero
  intro n
  rw [Node.mids_withCollapsed]

theorem handleArrowNormalizeTree_mids_le (t : Node) (id : String) :
    (handleArrowNormalizeTree t id).mids ≤ t.mids := by
  apply mapFirst_mids_le_zero
  intro n
  rw [Node.mids_withText]

theorem handleBlurTree_mids_le (t : Node) (id : String) :
    (handleBlurTree t id).mids ≤ t.mids := by
  unfold handleBlurTree
  rcases h : findNodeAndParent t id with _ | r
  · exact le_rfl
  · obtain ⟨n, q⟩ := r
    rcases q with _ | parent
    · dsimp only
      apply mapFirst_mids_le_zero
      intro m
      rw [Node.mids_withText]
    · dsimp only
      apply mapFirst_mids_le_zero
      intro m
      exact blurFn_mids_le id m

theorem handleExpandAllTree_mids_le (t : Node) :
    (handleExpandAllTree t).mids ≤ t.mids :=
  le_of_eq (expandAll_mids_aux.1 t)

theorem handleCollapseAllTree_mids_le (t : Node) :
    (handleCollapseAllTree t).mids ≤ t.mids := by
  unfold handleCollapseAllTree
  rw [Node.mids_withCollapsed]
  exact le_of_eq (collapseAll_mids_aux.1 t)

theorem runSearch_mids_le (q : String) (t : Node) :
    (runSearch q t).1.mids ≤ t.mids := by
  unfold runSearch
  by_cases hq : jsTrim q = ""
  · rw [if_pos hq]
  · rw [if_neg hq]
    rcases hs : searchAndExpandN (jsToLower q) t with ⟨t', ms, fl⟩
    have hm := (searchAndExpand_mids_aux (jsToLower q)).1 t
    rw [hs] at hm
    dsimp only
    exact le_of_eq hm

theorem handleShiftTab_mids_le (vr : String) (t : Node) (id : String) :
    (handleShiftTab vr t id).1.mids ≤ t.mids := by
  unfold handleShiftTab
  rcases h : findNodeAndParent t id with _ | r
  · exact le_rfl
  obtain ⟨n, q⟩ := r
  rcases q with _ | parent
  · exact le_rfl
  dsimp only
  by_cases hvr : parent.id = vr
  · rw [if_pos hvr]
  · rw [if_neg hvr]
    rcases h2 : findNodeAndParent t parent.id with _ | r2
    · exact le_rfl
    obtain ⟨n2, q2⟩ := r2
    rcases q2 with _ | gp
    · exact le_rfl
    · dsimp only
      exact remove_insertAfter_mids_le t id n parent h parent.id

theorem handleTabState_mids_le (t : Node) (id : String) :
    (handleTabState t id).mids ≤ t.mids := by
  unfold handleTabState handleTab
  rcases h : findNodeAndParent t id with _ | r
  · exact le_rfl
  obtain ⟨n, q⟩ := r
  rcases q with _ | parent
  · exact le_rfl
  dsimp only
  by_cases hz : parent.children.findIdxId id = 0
  · rw [if_pos hz]
  · rw [if_neg hz]

theorem handleMoveNode_mids_le (vr : String) (t : Node) (id : String) (dir : Direction) :
    (handleMoveNode vr t id dir).1.mids ≤ t.mids := by
  unfold handleMoveNode
  rcases h : findNodeAndParent t id with _ | r
  · exact le_rfl
  obtain ⟨n, q⟩ := r
  rcases q with _ | parent
  · exact le_rfl
  cases dir with
  | up =>
    dsimp only
    by_cases hidx : 0 < parent.children.findIdxId id
    · rw [if_pos hidx]
      rcases hp : parent.children.get? (parent.children.findIdxId id - 1) with _ | prev
      · exact le_rfl
      · dsimp only
        by_cases hcond : prev.collapsed = false ∧ ¬prev.children = .nil
        · rw [if_pos hcond]
          apply mapFirst_mids_le_zero
          intro m
          exact le_of_eq (moveUpAbsorbFn_mids _ m)
        · rw [if_neg hcond]
          apply mapFirst_mids_le_zero
          intro m
          exact le_of_eq (swapFn_mids _ m)
    · rw [if_neg hidx]
      by_cases hvr : parent.id = vr ∨ parent.id = "root"
      · rw [if_pos hvr]
      · rw [if_neg hvr]
        rcases h2 : findNodeAndParent t parent.id with _ | r2
        · exact le_rfl
        obtain ⟨n2, q2⟩ := r2
        rcases q2 with _ | gp
        · exact le_rfl
        · dsimp only
          exact remove_insertBefore_mids_le t id n parent h parent.id
  | down =>
    dsimp only
    by_cases hidx : parent.children.findIdxId id + 1 < parent.children.length
    · rw [if_pos hidx]
      rcases hp : parent.children.get? (parent.children.findIdxId id + 1) with _ | nxt
      · exact le_rfl
      · dsimp only
        by_cases hcond : nxt.collapsed = false ∧ ¬nxt.children = .nil
        · rw [if_pos hcond]
          apply mapFirst_mids_le_zero
          intro m
          exact le_of_eq (moveDownAbsorbFn_mids _ m)
        · rw [if_neg hcond]
          apply mapFirst_mids_le_zero
          intro m
          exact le_of_eq (swapFn_mids _ m)
    · rw [if_neg hidx]
      by_cases hvr : parent.id = vr ∨ parent.id = "root"
      · rw [if_pos hvr]
      · rw [if_neg hvr]
        rcases h2 : findNodeAndParent t parent.id with _ | r2
        · exact le_rfl
        obtain ⟨n2, q2⟩ := r2
        rcases q2 with _ | gp
        · exact le_rfl
        · dsimp only
          exact remove_insertAfter_mids_le t id n parent h parent.id

theorem handleBackspace_mids_le (vr : String) (t : Node) (id : String) :
    (handleBackspace vr t id).1.mids ≤ t.mids := by
  have hmain : ∀ node parent, findNodeAndParent t id = some (node, some parent) →
      (backspaceMain vr t id node parent).1.mids ≤ t.mids := by
    intro node parent h
    unfold backspaceMain
    dsimp only
    by_cases hidx : 0 < parent.children.findIdxId id
    · rw [if_pos hidx]
      rcases hp : parent.children.get? (parent.children.findIdxId id - 1) with _ | prev
      · exact le_rfl
      · dsimp only
        by_cases hcond : ¬prev.children = .nil ∧ prev.collapsed = false
        · rw [if_pos hcond]
          apply mapFirst_mids_le_zero
          intro m
          exact le_of_eq (moveUpAbsorbFn_mids _ m)
        · rw [if_neg hcond]
          apply mapFirst_mids_le_zero
          intro m
          exact backspaceMergeFn_mids_le _ m
    · rw [if_neg hidx]
      by_cases hvr : parent.id = vr
      · rw [if_pos hvr]
      · rw [if_neg hvr]
        rcases h2 : findNodeAndParent t parent.id with _ | r2
        · exact le_rfl
        obtain ⟨n2, q2⟩ := r2
        rcases q2 with _ | gp
        · exact le_rfl
        · dsimp only
          exact remove_insertAfter_mids_le t id node parent h parent.id
  unfold handleBackspace
  rcases h : findNodeAndParent t id with _ | r
  · exact le_rfl
  obtain ⟨node, q⟩ := r
  rcases q with _ | parent
  · exact le_rfl
  dsimp only
  by_cases hcond : ¬node.children = .nil ∧ parent.children.findIdxId id = 0 ∧
      parent.id ≠ vr
  · rw [if_pos hcond]
    rcases h2 : findNodeAndParent t parent.id with _ | r2
    · exact hmain node parent h
    obtain ⟨n2, q2⟩ := r2
    rcases q2 with _ | gp
    · exact hmain node parent h
    · dsimp only
      exact remove_insertAfter_mids_le t id node parent h parent.id
  · rw [if_neg hcond]
    exact hmain node parent h

theorem handleEnter_mids_le (t : Node) (id : String) (cursor : Nat) (newId : String) :
    (handleEnter t id cursor newId).1.mids ≤ t.mids + {newId} := by
  unfold handleEnter
  rcases h : findNodeAndParent t id with _ | r
  · exact le_add_right le_rfl
  obtain ⟨node, q⟩ := r
  dsimp only
  by_cases htext : node.text = ""
  · rw [if_pos htext]
    exact le_add_right le_rfl
  rw [if_neg htext]
  rcases q with _ | parent
  · exact le_add_right le_rfl
  dsimp only
  by_cases hz : cursor = 0
  · rw [if_pos hz]
    by_cases hblank : blankPrevSibling parent.children (parent.children.findIdxId id) = true
    · rw [if_pos hblank]
      exact le_add_right le_rfl
    · rw [if_neg hblank]
      apply mapFirst_mids_le
      intro m
      exact le_of_eq (enterInsertFn_mids _ newId m)
  · rw [if_neg hz]
    by_cases hsplit : ¬node.children = .nil ∧ node.collapsed = false
    · rw [if_pos hsplit]
      apply mapFirst_mids_le
      intro m
      have hm : (Node.mk m.id (jsTake m.text cursor) m.collapsed
          (Forest.cons (Node.mk newId (jsDrop m.text cursor) false Forest.nil)
            m.children)).mids = m.mids + {newId} := by
        simp only [Node.mids_mk, Forest.midsF_cons, Forest.midsF_nil]
        rw [Multiset.cons_zero]
        have hsing : ({newId} : Multiset String) + m.children.midsF
            = m.children.midsF + {newId} := add_comm _ _
        rw [hsing, ← Multiset.cons_add, Node.mids_self]
      exact le_of_eq hm
    · rw [if_neg hsplit]
      apply mapFirst_mids_le
      intro m
      exact enterSplitSiblingFn_mids_le _ cursor newId m

theorem handleAddFirstChildTree_mids_le (t : Node) (vr newId : String) :
    (handleAddFirstChildTree t vr newId).mids ≤ t.mids + {newId} := by
  apply mapFirst_mids_le
  intro m
  have hm : (m.withChildren (Forest.cons (Node.mk newId "" false Forest.nil)
      m.children)).mids = m.mids + {newId} := by
    simp only [Node.mids_withChildren, Forest.midsF_cons, Node.mids_mk,
      Forest.midsF_nil]
    rw [Multiset.cons_zero]
    have hsing : ({newId} : Multiset String) + m.children.midsF
        = m.children.midsF + {newId} := add_comm _ _
    rw [hsing, ← Multiset.cons_add, Node.mids_self]
  exact le_of_eq hm

theorem handleDrop_mids_le (t : Node) (s tgt : String) :
    (handleDrop t s tgt).1.mids ≤ t.mids := by
  unfold handleDrop
  by_cases h1 : s = "" ∨ s = tgt
  · rw [if_pos h1]
  rw [if_neg h1]
  by_cases h2 : isDescendant t s tgt = true
  · rw [if_pos h2]
  rw [if_neg h2]
  rcases h3 : findNodeAndParent t s with _ | r3
  · exact le_rfl
  obtain ⟨src, q3⟩ := r3
  rcases q3 with _ | sp
  · exact le_rfl
  rcases h4 : findNodeAndParent t tgt with _ | r4
  · exact le_rfl
  obtain ⟨tn, q4⟩ := r4
  rcases q4 with _ | tp
  · exact le_rfl
  dsimp only
  rcases h5 : findNodeAndParent (removeFirstById t s) tgt with _ | r5
  · exact le_rfl
  obtain ⟨tn2, q5⟩ := r5
  rcases q5 with _ | tp2
  · exact le_rfl
  · dsimp only
    exact remove_insertBefore_mids_le t s src sp h3 tgt

/-! ## The paste parser consumes only generated ids -/

/-- Total id pool held across the frames of a parser stack.  Frames hold
disjoint sub-forests (children still under construction), so the sum is
the pool of everything parsed so far. -/
def stackMids : List PasteFrame → Multiset String
  | [] => 0
  | (_, acc) :: rest => acc.midsF + stackMids rest

/-- The forest is nonempty and its last node still has empty children —
the shape of every frame sitting below the top of a reachable parser
stack (a node's children are written exactly once, when its frame is
popped). -/
def lastEmptyChildren : Forest → Prop
  | .nil => False
  | .cons n .nil => n.children = .nil
  | .cons _ (Forest.cons m f) => lastEmptyChildren (Forest.cons m f)

/-- Every frame of the list has a writable last node. -/
def framesOK : List PasteFrame → Prop
  | [] => True
  | (_, acc) :: rest => lastEmptyChildren acc ∧ framesOK rest

/-- Reachable-stack invariant: every frame strictly below the top is
writable. -/
def stackOK : List PasteFrame → Prop
  | [] => True
  | _ :: rest => framesOK rest

theorem setLast_mids (acc : Forest) :
    ∀ f : Forest, lastEmptyChildren f →
      (setLastChildren f acc).midsF = f.midsF + acc.midsF := by
  refine forestInd ?_ ?_
  · intro h
    cases h
  · intro n f ih h
    cases f with
    | nil =>
      have hn : n.children = .nil := h
      simp only [setLastChildren, Forest.midsF_cons, Forest.midsF_nil,
        Node.mids_withChildren, add_zero]
      rw [← Node.mids_self n, hn]
      simp only [Forest.midsF_nil, Multiset.cons_add, zero_add]
    | cons m g =>
      have h' : lastEmptyChildren (Forest.cons m g) := h
      simp only [setLastChildren, Forest.midsF_cons, ih h']
      abel

theorem lastEmpty_append_single (n : Node) (hn : n.children = .nil) :
    ∀ f : Forest, lastEmptyChildren (f.append (Forest.single n)) := by
  refine forestInd ?_ ?_
  · exact hn
  · intro m g ih
    rcases hg : g.append (Forest.single n) with _ | ⟨a, b⟩
    · exfalso
      cases g <;> simp [Forest.append, Forest.single] at hg
    · have h' := ih
      rw [hg] at h'
      simp only [Forest.append, hg]
      exact h'

theorem popFrames_invariant (lvl : Int) :
    ∀ fuel : Nat, ∀ s : List PasteFrame, stackOK s →
      stackMids (popFrames fuel s lvl) = stackMids s ∧
      stackOK (popFrames fuel s lvl) ∧
      (s ≠ [] → popFrames fuel s lvl ≠ []) := by
  intro fuel
  induction fuel with
  | zero =>
    intro s hok
    exact ⟨rfl, hok, fun h => h⟩
  | succ fuel ih =>
    intro s hok
    match s with
    | [] => exact ⟨rfl, trivial, fun h => absurd rfl h⟩
    | [(l, acc)] => exact ⟨rfl, hok, fun _ h => by cases h⟩
    | (l, acc) :: (l', acc') :: rest =>
      have hok' : lastEmptyChildren acc' ∧ framesOK rest := hok
      by_cases hl : lvl ≤ l
      · have heq : popFrames (fuel + 1) ((l, acc) :: (l', acc') :: rest) lvl
            = popFrames fuel ((l', setLastChildren acc' acc) :: rest) lvl := by
          simp [popFrames, hl]
        rw [heq]
        have hok2 : stackOK ((l', setLastChildren acc' acc) :: rest) := hok'.2
        obtain ⟨hm, ho, hn⟩ := ih ((l', setLastChildren acc' acc) :: rest) hok2
        refine ⟨?_, ho, fun _ => hn (by simp)⟩
        rw [hm]
        simp only [stackMids, setLast_mids acc acc' hok'.1]
        abel
      · have heq : popFrames (fuel + 1) ((l, acc) :: (l', acc') :: rest) lvl
            = (l, acc) :: (l', acc') :: rest := by
          simp [popFrames, hl]
        rw [heq]
        exact ⟨rfl, hok, fun h => by simp⟩

theorem pasteLine_invariant (gen : Nat → String) (st : List PasteFrame × Nat)
    (line : String) (hok : stackOK st.1) (hne : st.1 ≠ []) :
    stackOK (pasteLine gen st line).1 ∧ (pasteLine gen st line).1 ≠ [] ∧
    ((jsTrim line = "" ∧ pasteLine gen st line = st) ∨
     (jsTrim line ≠ "" ∧ (pasteLine gen st line).2 = st.2 + 1 ∧
       stackMids (pasteLine gen st line).1 = stackMids st.1 + {gen st.2})) := by
  unfold pasteLine
  by_cases hb : jsTrim line = ""
  · rw [if_pos hb]
    exact ⟨hok, hne, Or.inl ⟨hb, rfl⟩⟩
  · rw [if_neg hb]
    obtain ⟨hm, ho, hn⟩ :=
      popFrames_invariant ((indentWidth line.data : Nat) : Int) st.1.length st.1 hok
    rcases hs1 : popFrames st.1.length st.1 ((indentWidth line.data : Nat) : Int)
      with _ | ⟨⟨l, acc⟩, rest⟩
    · exact absurd hs1 (hn hne)
    · rw [hs1] at hm ho
      have hok1 : framesOK rest := ho
      dsimp only
      rw [hs1]
      dsimp only
      refine ⟨?_, by simp, Or.inr ⟨hb, rfl, ?_⟩⟩
      · exact ⟨lastEmpty_append_single
          (Node.mk (gen st.2) (cleanLine line) false Forest.nil) rfl acc, hok1⟩
      · rw [← hm]
        simp only [stackMids, Forest.midsF_append, Forest.midsF_single,
          Node.mids_mk, Forest.midsF_nil]
        rw [Multiset.cons_zero]
        abel

theorem pasteFold_invariant (gen : Nat → String) :
    ∀ lines : List String, ∀ st : List PasteFrame × Nat,
      stackOK st.1 → st.1 ≠ [] →
      stackOK (lines.foldl (pasteLine gen) st).1 ∧
      (lines.foldl (pasteLine gen) st).1 ≠ [] ∧
      ∃ k, k ≤ lines.length ∧ (lines.foldl (pasteLine gen) st).2 = st.2 + k ∧
        stackMids (lines.foldl (pasteLine gen) st).1
          = stackMids st.1 + Multiset.map gen ↑(List.range' st.2 k) := by
  intro lines
  induction lines with
  | nil =>
    intro st hok hne
    refine ⟨hok, hne, 0, by omega, by simp, by simp⟩
  | cons line rest ih =>
    intro st hok hne
    obtain ⟨hok1, hne1, hcase⟩ := pasteLine_invariant gen st line hok hne
    obtain ⟨hok2, hne2, k, hk, hc, hm⟩ := ih (pasteLine gen st line) hok1 hne1
    simp only [List.foldl_cons]
    refine ⟨hok2, hne2, ?_⟩
    rcases hcase with ⟨_, heq⟩ | ⟨_, hc1, hm1⟩
    · rw [heq] at hc hm ⊢
      exact ⟨k, by simp only [List.length_cons]; omega, hc, hm⟩
    · refine ⟨k + 1, by simp only [List.length_cons]; omega,
        by rw [hc, hc1]; omega, ?_⟩
      rw [hm, hm1, hc1]
      have hrange : List.range' st.2 (k + 1) = st.2 :: List.range' (st.2 + 1) k :=
        List.range'_succ st.2 k 1
      rw [hrange]
      simp only [Multiset.map_coe, List.map_cons, ← Multiset.cons_coe,
        ← Multiset.singleton_add]
      abel

theorem finishStack_mids :
    ∀ fuel : Nat, ∀ s : List PasteFrame, stackOK s → s.length ≤ fuel + 1 →
      (finishStack fuel s).midsF = stackMids s := by
  intro fuel
  induction fuel with
  | zero =>
    intro s hok hlen
    match s with
    | [] => simp [finishStack, stackMids]
    | [(l, acc)] => simp [finishStack, stackMids]
    | a :: b :: rest => simp at hlen
  | succ fuel ih =>
    intro s hok hlen
    match s with
    | [] => simp [finishStack, stackMids]
    | [(l, acc)] => simp [finishStack, stackMids]
    | (l, acc) :: (l', acc') :: rest =>
      have hok' : lastEmptyChildren acc' ∧ framesOK rest := hok
      have heq : finishStack (fuel + 1) ((l, acc) :: (l', acc') :: rest)
          = finishStack fuel ((l', setLastChildren acc' acc) :: rest) := by
        cases rest <;> rfl
      rw [heq]
      have hok2 : stackOK ((l', setLastChildren acc' acc) :: rest) := hok'.2
      have hlen2 : ((l', setLastChildren acc' acc) :: rest).length ≤ fuel + 1 := by
        simp at hlen ⊢
        omega
      rw [ih _ hok2 hlen2]
      simp only [stackMids, setLast_mids acc acc' hok'.1]
      abel

/-- Every id of a parsed forest comes from the generator applied to the
counters `0, …, k-1` for some `k` bounded by the line count. -/
theorem parseTextToNodes_mids (gen : Nat → String) (text : String) :
    ∃ k, k ≤ (splitLines text).length ∧
      (parseTextToNodes gen text).midsF = Multiset.map gen ↑(List.range k) := by
  unfold parseTextToNodes
  have hok : stackOK ([((-1 : Int), Forest.nil)] : List PasteFrame) := trivial
  have hne : ([((-1 : Int), Forest.nil)] : List PasteFrame) ≠ [] := by simp
  obtain ⟨hok', hne', k, hk, hc, hm⟩ :=
    pasteFold_invariant gen (splitLines text) ([((-1 : Int), Forest.nil)], 0) hok hne
  refine ⟨k, hk, ?_⟩
  rw [finishStack_mids _ _ hok' (by omega), hm]
  simp only [stackMids, Forest.midsF_nil, add_zero, zero_add, List.range_eq_range']

theorem handlePasteTree_mids_le (t : Node) (id : String) (gen : Nat → String)
    (pasted : String) :
    (handlePasteTree t id gen pasted).mids
      ≤ t.mids + (parseTextToNodes gen pasted).midsF := by
  unfold handlePasteTree
  by_cases h1 : ¬pasted.data.contains '\n'
  · rw [if_pos h1]
    exact le_add_right le_rfl
  rw [if_neg h1]
  dsimp only
  by_cases h2 : parseTextToNodes gen pasted = .nil
  · rw [if_pos h2]
    exact le_add_right le_rfl
  rw [if_neg h2]
  rcases h3 : findNodeAndParent t id with _ | r
  · exact le_add_right le_rfl
  obtain ⟨n, q⟩ := r
  rcases q with _ | parent
  · exact le_add_right le_rfl
  dsimp only
  apply mapFirst_mids_le
  intro m
  have hm : (m.withChildren (m.children.insertManyAt
      (parent.children.findIdxId id + 1) (parseTextToNodes gen pasted))).mids
      = m.mids + (parseTextToNodes gen pasted).midsF := by
    simp only [Node.mids_withChildren, Forest.midsF_insertManyAt]
    rw [← Multiset.cons_add, Node.mids_self]
  exact le_of_eq hm

/-- Adding one fresh id keeps an id pool duplicate-free. -/
theorem nodup_of_midsLe_add_fresh {t u : Node} {newId : String}
    (hle : u.mids ≤ t.mids + {newId}) (ht : t.ids.Nodup) (hnew : newId ∉ t.ids) :
    u.ids.Nodup := by
  have hnodup : (t.mids + ({newId} : Multiset String)).Nodup := by
    rw [Multiset.nodup_add]
    refine ⟨by simpa [Node.mids] using ht, Multiset.nodup_singleton newId, ?_⟩
    rw [Multiset.disjoint_left]
    intro a ha hmem
    rw [Multiset.mem_singleton] at hmem
    subst hmem
    exact hnew (by simpa [Node.mids] using ha)
  have := Multiset.nodup_of_le hle hnodup
  simpa [Node.mids] using this

theorem handleEnter_ids_subset (t : Node) (id : String) (cursor : Nat)
    (newId : String) :
    ∀ x ∈ (handleEnter t id cursor newId).1.ids, x ∈ t.ids ∨ x = newId := by
  intro x hx
  have hle := handleEnter_mids_le t id cursor newId
  have hmem : x ∈ t.mids + ({newId} : Multiset String) :=
    Multiset.mem_of_le hle (by simpa [Node.mids] using hx)
  rw [Multiset.mem_add] at hmem
  rcases hmem with h | h
  · left
    simpa [Node.mids] using h
  · right
    simpa using h

theorem handlePasteTree_nodup (t : Node) (id : String) (gen : Nat → String)
    (pasted : String) (ht : t.ids.Nodup)
    (hinj : ∀ k, k < (splitLines pasted).length →
      ∀ l, l < (splitLines pasted).length → gen k = gen l → k = l)
    (hfresh : ∀ k, k < (splitLines pasted).length → gen k ∉ t.ids) :
    (handlePasteTree t id gen pasted).ids.Nodup := by
  obtain ⟨k, hk, hmids⟩ := parseTextToNodes_mids gen pasted
  have hle := handlePasteTree_mids_le t id gen pasted
  rw [hmids] at hle
  have hnodup : (t.mids + Multiset.map gen ↑(List.range k)).Nodup := by
    rw [Multiset.nodup_add]
    refine ⟨by simpa [Node.mids] using ht, ?_, ?_⟩
    · refine Multiset.Nodup.map_on ?_ (by simpa using List.nodup_range k)
      intro x hx y hy hxy
      rw [Multiset.mem_coe, List.mem_range] at hx hy
      exact hinj x (by omega) y (by omega) hxy
    · rw [Multiset.disjoint_left]
      intro a ha hmem
      rw [Multiset.mem_map] at hmem
      obtain ⟨j, hj, hja⟩ := hmem
      rw [Multiset.mem_coe, List.mem_range] at hj
      have hj' : gen j ∉ t.ids := hfresh j (by omega)
      rw [hja] at hj'
      exact hj' (by simpa [Node.mids] using ha)
  have := Multiset.nodup_of_le hle hnodup
  simpa [Node.mids] using this

theorem handlePasteTree_ids_subset (t : Node) (id : String) (gen : Nat → String)
    (pasted : String) :
    ∀ x ∈ (handlePasteTree t id gen pasted).ids, x ∈ t.ids ∨ ∃ k, x = gen k := by
  intro x hx
  obtain ⟨k, hk, hmids⟩ := parseTextToNodes_mids gen pasted
  have hle := handlePasteTree_mids_le t id gen pasted
  rw [hmids] at hle
  have hmem : x ∈ t.mids + Multiset.map gen ↑(List.range k) :=
    Multiset.mem_of_le hle (by simpa [Node.mids] using hx)
  rw [Multiset.mem_add] at hmem
  rcases hmem with h | h
  · left
    simpa [Node.mids] using h
  · right
    rw [Multiset.mem_map] at h
    obtain ⟨j, _, hj⟩ := h
    exact ⟨j, hj.symm⟩

/-! ## Claim C1 -/

/-- Example document for exercising C1: a root with two top-level bullets,
the second carrying one child. -/
def c1doc : Node :=
  .mk "root" "Home" false
    (.cons (.mk "a" "alpha" false .nil)
      (.cons (.mk "b" "beta" false (Forest.single (.mk "b1" "child" false .nil)))
        .nil))

/-- **C1.**  For every well-formed document — pairwise-distinct ids, the
standing invariant of §3, which subsumes acyclicity — and every single
structural operation of the latest revision — indent (`handleTab`, whose
committed tree is `handleTabState` since the updater throws), outdent
(`handleShiftTab`), move-up/move-down (`handleMoveNode`), and drag-drop
(`handleDrop`) — the resulting document is still acyclic: no node is its
own ancestor after the operation, for any target id, any direction and
any drop pair. -/
theorem c1_structural_ops_acyclic (t : Node) (vr : String) (ht : t.ids.Nodup) :
    ∀ (id s tgt : String) (dir : Direction),
      acyclicN (handleTabState t id) = true ∧
      acyclicN (handleShiftTab vr t id).1 = true ∧
      acyclicN (handleMoveNode vr t id dir).1 = true ∧
      acyclicN (handleDrop t s tgt).1 = true := by
  intro id s tgt dir
  refine ⟨?_, ?_, ?_, ?_⟩
  · exact acyclicN_of_nodup _ (nodupIds_of_midsLe (handleTabState_mids_le t id) ht)
  · exact acyclicN_of_nodup _ (nodupIds_of_midsLe (handleShiftTab_mids_le vr t id) ht)
  · exact acyclicN_of_nodup _
      (nodupIds_of_midsLe (handleMoveNode_mids_le vr t id dir) ht)
  · exact acyclicN_of_nodup _ (nodupIds_of_midsLe (handleDrop_mids_le t s tgt) ht)

/-- Witness for C1 on a concrete document and concrete operations. -/
theorem c1_structural_ops_acyclic_witness :
    c1doc.ids.Nodup ∧
      (acyclicN (handleTabState c1doc "b") = true ∧
       acyclicN (handleShiftTab "root" c1doc "b1").1 = true ∧
       acyclicN (handleMoveNode "root" c1doc "b" Direction.up).1 = true ∧
       acyclicN (handleDrop c1doc "b" "a").1 = true) :=
  ⟨by decide, c1_structural_ops_acyclic c1doc "root" (by decide) "b" "b" "a"
    Direction.up |>.imp_right (fun h =>
      ⟨(c1_structural_ops_acyclic c1doc "root" (by decide) "b1" "b" "a"
        Direction.up).2.1, h.2⟩)⟩

/-! ## Claim C2 -/

/-- Example document for exercising C2. -/
def c2doc : Node :=
  .mk "root" "Home" false
    (.cons (.mk "a" "alpha" false .nil)
      (.cons (.mk "b" "beta" true (Forest.single (.mk "b1" "gamma" false .nil)))
        .nil))

/-- **C2.**  For every document whose node ids are pairwise distinct,
every embedded operation of the latest revision preserves that
distinctness; `findNodeAndParent` on any document either returns a node
whose id equals the queried id exactly, or reports not-found; and the
node-creating operations (Enter/split via `handleEnter`, paste-import via
`handlePasteTree`, plus `handleAddFirstChildTree`) only add nodes
carrying freshly generated ids — `GENERATE_ID` being modelled by the
parameters `newId` and `gen`. -/
theorem c2_unique_ids_preserved (t : Node) (ht : t.ids.Nodup)
    (vr id txt q s tgt : String) (b : Bool) (dir : Direction) (cursor : Nat)
    (newId : String) (hnew : newId ∉ t.ids)
    (gen : Nat → String) (pasted : String)
    (hinj : ∀ k, k < (splitLines pasted).length →
      ∀ l, l < (splitLines pasted).length → gen k = gen l → k = l)
    (hfresh : ∀ k, k < (splitLines pasted).length → gen k ∉ t.ids) :
    (∀ n p, findNodeAndParent t id = some (n, p) → n.id = id) ∧
    (handleUpdateTextTree t id txt).ids.Nodup ∧
    (handleToggleCollapseTree t id).ids.Nodup ∧
    (setCollapseStateTree t id b).ids.Nodup ∧
    (handleExpandAllTree t).ids.Nodup ∧
    (handleCollapseAllTree t).ids.Nodup ∧
    (runSearch q t).1.ids.Nodup ∧
    (handleBlurTree t id).ids.Nodup ∧
    (handleArrowNormalizeTree t id).ids.Nodup ∧
    (handleTabState t id).ids.Nodup ∧
    (handleShiftTab vr t id).1.ids.Nodup ∧
    (handleMoveNode vr t id dir).1.ids.Nodup ∧
    (handleBackspace vr t id).1.ids.Nodup ∧
    (handleDrop t s tgt).1.ids.Nodup ∧
    (handleEnter t id cursor newId).1.ids.Nodup ∧
    (∀ x ∈ (handleEnter t id cursor newId).1.ids, x ∈ t.ids ∨ x = newId) ∧
    (handleAddFirstChildTree t vr newId).ids.Nodup ∧
    (handlePasteTree t id gen pasted).ids.Nodup ∧
    (∀ x ∈ (handlePasteTree t id gen pasted).ids, x ∈ t.ids ∨ ∃ k, x = gen k) := by
  refine ⟨fun n p h => findNodeAndParent_id_eq t id n p h,
    nodupIds_of_midsLe (handleUpdateTextTree_mids_le t id txt) ht,
    nodupIds_of_midsLe (handleToggleCollapseTree_mids_le t id) ht,
    nodupIds_of_midsLe (setCollapseStateTree_mids_le t id b) ht,
    nodupIds_of_midsLe (handleExpandAllTree_mids_le t) ht,
    nodupIds_of_midsLe (handleCollapseAllTree_mids_le t) ht,
    nodupIds_of_midsLe (runSearch_mids_le q t) ht,
    nodupIds_of_midsLe (handleBlurTree_mids_le t id) ht,
    nodupIds_of_midsLe (handleArrowNormalizeTree_mids_le t id) ht,
    nodupIds_of_midsLe (handleTabState_mids_le t id) ht,
    nodupIds_of_midsLe (handleShiftTab_mids_le vr t id) ht,
    nodupIds_of_midsLe (handleMoveNode_mids_le vr t id dir) ht,
    nodupIds_of_midsLe (handleBackspace_mids_le vr t id) ht,
    nodupIds_of_midsLe (handleDrop_mids_le t s tgt) ht,
    nodup_of_midsLe_add_fresh (handleEnter_mids_le t id cursor newId) ht hnew,
    handleEnter_ids_subset t id cursor newId,
    nodup_of_midsLe_add_fresh (handleAddFirstChildTree_mids_le t vr newId) ht hnew,
    handlePasteTree_nodup t id gen pasted ht hinj hfresh,
    handlePasteTree_ids_subset t id gen pasted⟩

/-- Witness for C2 on a concrete document, id generator and pasted
block. -/
theorem c2_unique_ids_preserved_witness :
    c2doc.ids.Nodup ∧ ("fresh1" : String) ∉ c2doc.ids ∧
    (∀ k, k < (splitLines "- A\n  - B").length →
      ∀ l, l < (splitLines "- A\n  - B").length →
        (fun m => String.append "p" (Nat.repr m)) k
          = (fun m => String.append "p" (Nat.repr m)) l → k = l) ∧
    (∀ k, k < (splitLines "- A\n  - B").length →
      (fun m => String.append "p" (Nat.repr m)) k ∉ c2doc.ids) ∧
    ((∀ n p, findNodeAndParent c2doc "b1" = some (n, p) → n.id = "b1") ∧
    (handleUpdateTextTree c2doc "b1" "new text").ids.Nodup ∧
    (handleToggleCollapseTree c2doc "b1").ids.Nodup ∧
    (setCollapseStateTree c2doc "b1" true).ids.Nodup ∧
    (handleExpandAllTree c2doc).ids.Nodup ∧
    (handleCollapseAllTree c2doc).ids.Nodup ∧
    (runSearch "gamma" c2doc).1.ids.Nodup ∧
    (handleBlurTree c2doc "b1").ids.Nodup ∧
    (handleArrowNormalizeTree c2doc "b1").ids.Nodup ∧
    (handleTabState c2doc "b1").ids.Nodup ∧
    (handleShiftTab "root" c2doc "b1").1.ids.Nodup ∧
    (handleMoveNode "root" c2doc "b1" Direction.down).1.ids.Nodup ∧
    (handleBackspace "root" c2doc "b1").1.ids.Nodup ∧
    (handleDrop c2doc "b1" "a").1.ids.Nodup ∧
    (handleEnter c2doc "b1" 3 "fresh1").1.ids.Nodup ∧
    (∀ x ∈ (handleEnter c2doc "b1" 3 "fresh1").1.ids, x ∈ c2doc.ids ∨ x = "fresh1") ∧
    (handleAddFirstChildTree c2doc "root" "fresh1").ids.Nodup ∧
    (handlePasteTree c2doc "b1" (fun m => String.append "p" (Nat.repr m))
      "- A\n  - B").ids.Nodup ∧
    (∀ x ∈ (handlePasteTree c2doc "b1" (fun m => String.append "p" (Nat.repr m))
      "- A\n  - B").ids, x ∈ c2doc.ids ∨
        ∃ k, x = (fun m => String.append "p" (Nat.repr m)) k)) :=
  ⟨by decide, by decide, by decide, by decide,
    c2_unique_ids_preserved c2doc (by decide) "root" "b1" "new text" "gamma" "b1"
      "a" true Direction.down 3 "fresh1" (by decide)
      (fun m => String.append "p" (Nat.repr m)) "- A\n  - B" (by decide) (by decide)⟩

/-! ## Subtree membership -/

theorem findInSubtree_mem_aux (tid : String) :
    (∀ t : Node, findInSubtree tid t = true ↔ tid ∈ t.ids) ∧
    (∀ f : Forest, findInSubtreeF tid f = true ↔ tid ∈ f.idsF) := by
  refine nodeForestInd ?_ ?_ ?_
  · intro i s b f ih
    simp only [findInSubtree, Node.ids_mk, List.mem_cons, Bool.or_eq_true,
      decide_eq_true_eq]
    rw [ih]
    constructor
    · rintro (h | h)
      · exact Or.inl h.symm
      · exact Or.inr h
    · rintro (h | h)
      · exact Or.inl h.symm
      · exact Or.inr h
  · simp [findInSubtreeF]
  · intro c rest ihc ihr
    simp only [findInSubtreeF, Forest.idsF_cons, List.mem_append, Bool.or_eq_true]
    rw [ihc, ihr]

/-- A lookup that reports a parent was not answered at the root. -/
theorem findNodeAndParent_parent_ne_root (t : Node) (tid : String) (n q : Node)
    (h : findNodeAndParent t tid = some (n, some q)) : tid ≠ t.id := by
  intro heq
  obtain ⟨i, s, b, f⟩ := t
  simp only [Node.id_mk] at heq
  simp only [findNodeAndParent, fnapN, if_pos heq.symm] at h
  simp at h

/-! ## Claim C3 -/

/-- Example document for exercising C3: bullet `a` carries the child
`a1`, bullet `b` is a leaf. -/
def c3doc : Node :=
  .mk "root" "Home" false
    (.cons (.mk "a" "alpha" false (Forest.single (.mk "a1" "inner" false .nil)))
      (.cons (.mk "b" "beta" false .nil) .nil))

/-- **C3.**  For every document and every drop pair: dropping a node onto
itself is a no-op with unmoved focus; dropping onto one of its own
descendants is likewise rejected; and in the remaining case — both ids
resolve below the root — the source node is detached from its parent and
re-inserted as the previous sibling of the target, with focus moving to
the moved node. -/
theorem c3_drag_drop_insert_before (t : Node) (s tgt : String) :
    (s = tgt → handleDrop t s tgt = (t, FocusIntent.noFocus)) ∧
    (isDescendant t s tgt = true → handleDrop t s tgt = (t, FocusIntent.noFocus)) ∧
    (∀ src p n q, s ≠ "" → s ≠ tgt → isDescendant t s tgt = false →
      findNodeAndParent t s = some (src, some p) →
      findNodeAndParent t tgt = some (n, some q) →
      handleDrop t s tgt
        = (insertBeforeFirst (removeFirstById t s) tgt src,
           ⟨some s, Cursor.none⟩)) := by
  refine ⟨?_, ?_, ?_⟩
  · intro h
    simp [handleDrop, h]
  · intro h
    unfold handleDrop
    by_cases h0 : s = "" ∨ s = tgt
    · rw [if_pos h0]
    · rw [if_neg h0, if_pos h]
  · intro src p n q h0 h1 h2 hfs hft
    unfold handleDrop
    rw [if_neg (by simp [h0, h1]), if_neg (by simp [h2])]
    rw [hfs, hft]
    dsimp only
    have hrid : (removeFirstById t s).id = t.id := extract_root_id t s
    have htne : tgt ≠ t.id := findNodeAndParent_parent_ne_root t tgt n q hft
    have hsid : src.id = s := findNodeAndParent_id_eq t s src _ hfs
    have hmem : tgt ∈ t.ids := by
      by_contra hx
      have hnone : fnapN tgt Option.none t = Option.none :=
        ((fnap_none_iff_aux tgt).1 t Option.none).2 hx
      have hft' : fnapN tgt Option.none t = some (n, some q) := hft
      rw [hnone] at hft'
      cases hft'
    have hnotsrc : tgt ∉ src.ids := by
      have hdesc : findInSubtreeF tgt src.children = false := by
        have h2' : isDescendant t s tgt = false := h2
        simp only [isDescendant, hfs] at h2'
        exact h2'
      intro hx
      obtain ⟨i0, s0, b0, f0⟩ := src
      simp only [Node.id_mk] at hsid
      simp only [Node.children_mk] at hdesc
      simp only [Node.ids_mk, List.mem_cons] at hx
      rcases hx with hx | hx
      · exact h1 (hsid.symm.trans hx.symm)
      · have hin : findInSubtreeF tgt f0 = true :=
          ((findInSubtree_mem_aux tgt).2 f0).2 hx
        rw [hin] at hdesc
        cases hdesc
    have hrm : (removeFirstById t s).mids + src.mids = t.mids :=
      removeFirstById_mids t s src p hfs
    have hmem' : tgt ∈ (removeFirstById t s).ids := by
      have hm1 : tgt ∈ t.mids := by
        simp only [Node.mids, Multiset.mem_coe]
        exact hmem
      rw [← hrm] at hm1
      rcases Multiset.mem_add.1 hm1 with hmm | hmm
      · simpa [Node.mids, Multiset.mem_coe] using hmm
      · exact absurd (by simpa [Node.mids, Multiset.mem_coe] using hmm) hnotsrc
    have hroot : tgt ≠ (removeFirstById t s).id := by
      rw [hrid]
      exact htne
    obtain ⟨n', p', hfind⟩ :=
      findNodeAndParent_of_mem (removeFirstById t s) tgt hmem' hroot
    rw [hfind]

/-- Witness for C3: a self-drop, a drop onto a descendant, and a real
move on a concrete document. -/
theorem c3_drag_drop_insert_before_witness :
    handleDrop c3doc "b" "b" = (c3doc, FocusIntent.noFocus) ∧
    handleDrop c3doc "a" "a1" = (c3doc, FocusIntent.noFocus) ∧
    handleDrop c3doc "b" "a1"
      = (insertBeforeFirst (removeFirstById c3doc "b") "a1"
          (.mk "b" "beta" false .nil), ⟨some "b", Cursor.none⟩) :=
  ⟨(c3_drag_drop_insert_before c3doc "b" "b").1 rfl,
   (c3_drag_drop_insert_before c3doc "a" "a1").2.1 (by decide),
   (c3_drag_drop_insert_before c3doc "b" "a1").2.2
     (.mk "b" "beta" false .nil) c3doc (.mk "a1" "inner" false .nil)
     (.mk "a" "alpha" false (Forest.single (.mk "a1" "inner" false .nil)))
     (by decide) (by decide) (by decide) rfl rfl⟩

/-! ## Claim C4 -/

/-- Depth-4 document for C4: the only occurrence of `"target"` sits in
node `D`, below the three collapsed ancestors `A`, `B`, `C`. -/
def c4doc : Node :=
  .mk "root" "Home" false
    (Forest.single (.mk "A" "alpha" true
      (Forest.single (.mk "B" "beta" true
        (Forest.single (.mk "C" "gamma" true
          (Forest.single (.mk "D" "the target" false .nil))))))))

/-- **C4.**  The claim asserts that a search clears `collapsed` on every
ancestor of a deep match.  On the depth-4 document it fails: the
recursion's return value only consults the *direct* children's text, so
expansion stops two levels above the match — `B` and `C` are expanded but
the outermost ancestor `A` stays collapsed, even though `matchIds` is
exactly `[D]`. -/
theorem c4_search_expansion_depth_bug :
    runSearch "target" c4doc
      = (.mk "root" "Home" false
          (Forest.single (.mk "A" "alpha" true
            (Forest.single (.mk "B" "beta" false
              (Forest.single (.mk "C" "gamma" false
                (Forest.single (.mk "D" "the target" false .nil)))))))),
         ["D"]) := by rfl

/-! ## Claim C5 -/

/-- Document for C5: `B` has a child, is *not* the first child of its
parent, and its previous sibling `A` is a childless leaf. -/
def c5doc : Node :=
  .mk "root" "Home" false
    (.cons (.mk "A" "a" false .nil)
      (.cons (.mk "B" "b" false (Forest.single (.mk "C" "c" false .nil)))
        .nil))

/-- **C5, counterexample.**  The claim says backspace-at-0 on a node with
children that is not the first child of its parent is a no-op.  On
`c5doc`, backspace on `B` instead merges `B` into its previous sibling
`A` — `A`'s text becomes `"a b"` and it adopts `B`'s child — so the
document changes. -/
theorem c5_backspace_with_children_counterexample :
    handleBackspace "root" c5doc "B"
      = (.mk "root" "Home" false
          (Forest.single
            (.mk "A" "a b" false (Forest.single (.mk "C" "c" false .nil)))),
         ⟨some "A", Cursor.offset 2⟩) ∧
    (handleBackspace "root" c5doc "B").1 ≠ c5doc := by
  exact ⟨by rfl, by decide⟩

/-- **C5, amended.**  Backspace at offset 0 on a node with children:
if it is the first child of a non-view-root parent that itself has a
parent, the node is promoted to the next sibling of its parent (focus on
the node, cursor at end); if it is the first child of the view root the
operation is a no-op; but a non-first child is *not* left alone — it is
reparented under an expanded previous sibling (focus start) or merged
into a collapsed-or-childless one (focus at the join point). -/
theorem c5_backspace_with_children (vr : String) (t : Node) (id : String)
    (node parent : Node)
    (hfind : findNodeAndParent t id = some (node, some parent))
    (hch : ¬node.children = .nil) :
    (parent.children.findIdxId id = 0 → parent.id ≠ vr →
      ∀ g gp, findNodeAndParent t parent.id = some (g, some gp) →
        handleBackspace vr t id
          = (insertAfterFirst (removeFirstById t id) parent.id node,
             ⟨some id, Cursor.atEnd⟩)) ∧
    (parent.children.findIdxId id = 0 → parent.id = vr →
      handleBackspace vr t id = (t, FocusIntent.noFocus)) ∧
    (∀ j, parent.children.findIdxId id = j + 1 →
      ∀ pv, parent.children.get? j = some pv →
        ((¬pv.children = .nil ∧ pv.collapsed = false →
           handleBackspace vr t id
             = (mapFirst t parent.id (moveUpAbsorbFn j),
                ⟨some id, Cursor.start⟩)) ∧
         (¬(¬pv.children = .nil ∧ pv.collapsed = false) →
           handleBackspace vr t id
             = (mapFirst t parent.id (backspaceMergeFn j),
                ⟨some pv.id, Cursor.offset (pv.text.length +
                  (if pv.text != "" && node.text != "" &&
                      !endsWithSpace pv.text && !startsWithSpace node.text
                   then 1 else 0))⟩)))) := by
  refine ⟨?_, ?_, ?_⟩
  · intro h0 hvr g gp hg
    unfold handleBackspace
    rw [hfind]
    dsimp only
    rw [if_pos ⟨hch, h0, hvr⟩, hg]
  · intro h0 hvr
    unfold handleBackspace
    rw [hfind]
    dsimp only
    rw [if_neg (by simp [hvr])]
    unfold backspaceMain
    dsimp only
    rw [h0, if_neg (by omega), if_pos hvr]
  · intro j hj pv hpv
    constructor
    · intro hre
      unfold handleBackspace
      rw [hfind]
      dsimp only
      rw [if_neg (by simp [hj])]
      unfold backspaceMain
      dsimp only
      rw [hj, if_pos (Nat.succ_pos j), Nat.add_sub_cancel, hpv]
      dsimp only
      rw [if_pos hre]
    · intro hre
      unfold handleBackspace
      rw [hfind]
      dsimp only
      rw [if_neg (by simp [hj])]
      unfold backspaceMain
      dsimp only
      rw [hj, if_pos (Nat.succ_pos j), Nat.add_sub_cancel, hpv]
      dsimp only
      rw [if_neg hre]

/-- Witness for the amended C5, exercising the merge case on `c5doc`. -/
theorem c5_backspace_with_children_witness :
    handleBackspace "root" c5doc "B"
      = (mapFirst c5doc "root" (backspaceMergeFn 0),
         ⟨some "A", Cursor.offset 2⟩) :=
  ((c5_backspace_with_children "root" c5doc "B"
      (.mk "B" "b" false (Forest.single (.mk "C" "c" false .nil))) c5doc
      rfl (by decide)).2.2 0 rfl (.mk "A" "a" false .nil) rfl).2 (by decide)

/-! ## Claim C6 -/

/-- Document for C6: one bullet `a` with non-empty text and no previous
sibling. -/
def c6doc : Node :=
  .mk "root" "Home" false (Forest.single (.mk "a" "alpha" false .nil))

/-- **C6, counterexample.**  The claim says that after an insert-at-start
the focus stays on the *original* node.  On `c6doc`, Enter at offset 0 on
`a` does insert a fresh empty sibling before it, but the focus intent
targets the newly created node (`"fresh"`, cursor at start), not `a`. -/
theorem c6_enter_at_start_counterexample :
    handleEnter c6doc "a" 0 "fresh"
      = (.mk "root" "Home" false
          (.cons (.mk "fresh" "" false .nil)
            (.cons (.mk "a" "alpha" false .nil) .nil)),
         ⟨some "fresh", Cursor.start⟩) ∧
    (handleEnter c6doc "a" 0 "fresh").2.focusId ≠ some "a" :=
  ⟨by rfl, by decide⟩

/-- **C6, amended.**  Enter at cursor offset 0 on a node with non-empty
text inserts a fresh empty childless sibling immediately before it,
except when the immediately preceding sibling has whitespace-only text
and no children (then it is a no-op); in the inserting case focus moves
to the *new* node, cursor at start. -/
theorem c6_enter_at_start (t : Node) (id newId : String) (node parent : Node)
    (hfind : findNodeAndParent t id = some (node, some parent))
    (htext : node.text ≠ "") :
    (blankPrevSibling parent.children (parent.children.findIdxId id) = true →
      handleEnter t id 0 newId = (t, FocusIntent.noFocus)) ∧
    (blankPrevSibling parent.children (parent.children.findIdxId id) = false →
      handleEnter t id 0 newId
        = (mapFirst t parent.id
            (enterInsertFn (parent.children.findIdxId id) newId),
           ⟨some newId, Cursor.start⟩)) := by
  constructor
  · intro h
    unfold handleEnter
    rw [hfind]
    dsimp only
    rw [if_neg htext]
    rw [if_pos rfl, if_pos h]
  · intro h
    unfold handleEnter
    rw [hfind]
    dsimp only
    rw [if_neg htext]
    rw [if_pos rfl, if_neg (by simp [h])]

/-- Witness for the amended C6 on `c6doc`. -/
theorem c6_enter_at_start_witness :
    handleEnter c6doc "a" 0 "fresh"
      = (mapFirst c6doc "root" (enterInsertFn 0 "fresh"),
         ⟨some "fresh", Cursor.start⟩) :=
  (c6_enter_at_start c6doc "a" "fresh" (.mk "a" "alpha" false .nil) c6doc rfl
    (by decide)).2 rfl

/-! ## Claim C7 -/

/-- Document for C7: `b` is the second child, so Tab should indent it
under `a`. -/
def c7doc : Node :=
  .mk "root" "Home" false
    (.cons (.mk "a" "alpha" false .nil)
      (.cons (.mk "b" "beta" false .nil) .nil))

/-- **C7.**  The claim says Tab always indents a non-first child under
its previous sibling and is total.  In the latest revision the updater
pushes `nodeToMove`, a variable no line of `handleTab` declares, so every
non-first-child Tab throws a `ReferenceError` before the new tree is
returned: the update never commits and the document is left unchanged —
the operation neither indents nor is total. -/
theorem c7_tab_throws (t : Node) (id : String) (node parent : Node)
    (hfind : findNodeAndParent t id = some (node, some parent))
    (hidx : parent.children.findIdxId id ≠ 0) :
    handleTab t id = .error "ReferenceError: nodeToMove is not defined" ∧
    handleTabState t id = t := by
  have h1 : handleTab t id = .error "ReferenceError: nodeToMove is not defined" := by
    unfold handleTab
    rw [hfind]
    dsimp only
    rw [if_neg hidx]
  exact ⟨h1, by rw [handleTabState, h1]⟩

/-- Witness for C7: Tab on the second child of `c7doc` throws and leaves
the tree untouched. -/
theorem c7_tab_throws_witness :
    handleTab c7doc "b" = .error "ReferenceError: nodeToMove is not defined" ∧
    handleTabState c7doc "b" = c7doc :=
  c7_tab_throws c7doc "b" (.mk "b" "beta" false .nil) c7doc rfl (by decide)

/-! ## Claim C8 -/

/-- Document for C8, visible-children case: `n` has an expanded child, so
Enter at an interior offset splits into a first child. -/
def c8doc : Node :=
  .mk "root" "Home" false
    (Forest.single (.mk "n" "hello world" false
      (Forest.single (.mk "k" "kid" false .nil))))

/-- Document for C8, childless case. -/
def c8leaf : Node :=
  .mk "root" "Home" false (Forest.single (.mk "n" "hello world" false .nil))

/-- Document for C8, collapsed-children case: the split falls back to the
next-sibling placement. -/
def c8coll : Node :=
  .mk "root" "Home" false
    (Forest.single (.mk "n" "hello world" true
      (Forest.single (.mk "k" "kid" false .nil))))

/-- **C8, counterexample.**  The claim says splitting `"hello world"` at
offset 5 and then backspacing the new node at offset 0 restores the text
and child count also when the node has visible children.  On `c8doc` the
split makes the new node the *first child* of `n`, and backspace-at-0 on
a first child *promotes* it past its parent instead of merging: `n` is
left with text `"hello"` and `" world"` survives as a separate next
sibling — the original document is not restored. -/
theorem c8_split_backspace_counterexample :
    (handleBackspace "root" (handleEnter c8doc "n" 5 "m").1 "m").1
      = .mk "root" "Home" false
          (.cons (.mk "n" "hello" false (Forest.single (.mk "k" "kid" false .nil)))
            (.cons (.mk "m" " world" false .nil) .nil)) ∧
    (handleBackspace "root" (handleEnter c8doc "n" 5 "m").1 "m").1 ≠ c8doc :=
  ⟨by rfl, by decide⟩

/-- **C8, amended.**  Split at offset 5 followed by backspace-at-0 on the
new node restores `"hello world"` and the child count when the new node
was placed as the next sibling — both for a childless node and for a
collapsed node with children (no joining space is added because the split
tail starts with whitespace).  When the node has visible children the new
node becomes its first child and the backspace promotes it instead: the
text stays split across two nodes. -/
theorem c8_split_then_backspace :
    handleBackspace "root" (handleEnter c8leaf "n" 5 "m").1 "m"
      = (c8leaf, ⟨some "n", Cursor.offset 5⟩) ∧
    handleBackspace "root" (handleEnter c8coll "n" 5 "m").1 "m"
      = (c8coll, ⟨some "n", Cursor.offset 5⟩) ∧
    handleBackspace "root" (handleEnter c8doc "n" 5 "m").1 "m"
      = (.mk "root" "Home" false
          (.cons (.mk "n" "hello" false (Forest.single (.mk "k" "kid" false .nil)))
            (.cons (.mk "m" " world" false .nil) .nil)),
         ⟨some "m", Cursor.atEnd⟩) :=
  ⟨by rfl, by rfl, by rfl⟩

/-! ## Claim C9 -/

/-- Document for C9 with a mixed flag state: `a` starts collapsed, `b`
and `a1` expanded. -/
def c9doc : Node :=
  .mk "root" "Home" false
    (.cons (.mk "a" "alpha" true (Forest.single (.mk "a1" "inner" false .nil)))
      (.cons (.mk "b" "beta" false .nil) .nil))

/-- **C9, counterexample.**  The claim says collapse-all followed by
expand-all restores every pre-existing `collapsed` flag.  On `c9doc`,
node `a` starts collapsed, yet after collapse-all + expand-all every flag
is `false` — `a`'s original `true` is lost; the reverse order loses `b`'s
original `false` the same way. -/
theorem c9_collapse_expand_counterexample :
    handleExpandAllTree (handleCollapseAllTree c9doc)
      = .mk "root" "Home" false
          (.cons (.mk "a" "alpha" false (Forest.single (.mk "a1" "inner" false .nil)))
            (.cons (.mk "b" "beta" false .nil) .nil)) ∧
    handleExpandAllTree (handleCollapseAllTree c9doc) ≠ c9doc ∧
    handleCollapseAllTree (handleExpandAllTree c9doc) ≠ c9doc :=
  ⟨by rfl, by decide, by decide⟩

theorem expand_collapse_aux :
    (∀ n : Node, expandAllN (collapseAllN n) = expandAllN n ∧
       collapseAllN (expandAllN n) = collapseAllN n) ∧
    (∀ f : Forest, expandAllF (collapseAllF f) = expandAllF f ∧
       collapseAllF (expandAllF f) = collapseAllF f) := by
  refine nodeForestInd ?_ ?_ ?_
  · intro i t b f ih
    simp [expandAllN, collapseAllN, ih.1, ih.2]
  · simp [expandAllF, collapseAllF]
  · intro n f ihn ihf
    simp [expandAllF, collapseAllF, ihn.1, ihn.2, ihf.1, ihf.2]

theorem expandAllN_withCollapsed (x : Node) (b : Bool) :
    expandAllN (x.withCollapsed b) = expandAllN x := by
  obtain ⟨i, t, b0, f⟩ := x
  rfl

/-- **C9, amended.**  Expand-all and collapse-all erase the flag history
rather than archive it: each is a constant rewrite of the flags, so the
two compositions are not the identity but equal a single expand-all,
respectively a single collapse-all — and neither ever leaves the root
collapsed. -/
theorem c9_collapse_expand_all (t : Node) :
    handleExpandAllTree (handleCollapseAllTree t) = handleExpandAllTree t ∧
    handleCollapseAllTree (handleExpandAllTree t) = handleCollapseAllTree t ∧
    (handleExpandAllTree t).collapsed = false ∧
    (handleCollapseAllTree t).collapsed = false := by
  refine ⟨?_, ?_, ?_, ?_⟩
  · unfold handleExpandAllTree handleCollapseAllTree
    rw [expandAllN_withCollapsed]
    exact (expand_collapse_aux.1 t).1
  · unfold handleExpandAllTree handleCollapseAllTree
    rw [(expand_collapse_aux.1 t).2]
  · obtain ⟨i, s, b, f⟩ := t
    rfl
  · obtain ⟨i, s, b, f⟩ := t
    rfl

/-! ## Claim C10 -/

/-- Document for C10: bullet `e` has empty text. -/
def c10doc : Node :=
  .mk "root" "Home" false (Forest.single (.mk "e" "" false .nil))

/-- **C10.**  In the latest revision, Enter on a node whose text is the
empty string returns the previous tree unchanged with no focus change,
for every cursor offset and every generated id — the early
`node.text === ''` return fires before any split, insert or outdent
logic. -/
theorem c10_enter_on_empty_text (t : Node) (id : String) (node : Node)
    (q : Option Node) (hfind : findNodeAndParent t id = some (node, q))
    (htext : node.text = "") :
    ∀ cursor newId, handleEnter t id cursor newId = (t, FocusIntent.noFocus) := by
  intro cursor newId
  unfold handleEnter
  rw [hfind]
  dsimp only
  rw [if_pos htext]

/-- Witness for C10 on a concrete document. -/
theorem c10_enter_on_empty_text_witness :
    handleEnter c10doc "e" 3 "fresh" = (c10doc, FocusIntent.noFocus) :=
  c10_enter_on_empty_text c10doc "e" (.mk "e" "" false .nil) (some c10doc)
    rfl rfl 3 "fresh"
